import Mathlib

/-!
Shallow embedding of the MCP tool-integration subsystem of the sandbox-agent
repository (src/src/tools/mcp/): the stdio transport client (mcp_client.py),
the provider-process supervisor (mcp_server_manager.py), the tool adapter and
per-server tool collection (mcp_tool_adapter.py), and the registry
(mcp_registry.py).  Python dictionaries are embedded as association lists with
Python's insertion-order / replace-on-assign semantics; subprocesses are an
explicit heap of process records carrying a liveness flag, a scripted list of
stdout response lines, and the log of requests written to their stdin.
-/

namespace SandboxMCP

/-! ## Python dict semantics on association lists -/

/-- Python dict lookup: first (hence unique) binding of the key. -/
def dictGet? {α : Type} : List (String × α) → String → Option α
  | [], _ => none
  | (k, v) :: rest, key => if k = key then some v else dictGet? rest key

/-- Python dict assignment: replace the binding in place if the key is
present, append a new binding otherwise. -/
def dictSet {α : Type} : List (String × α) → String → α → List (String × α)
  | [], key, v => [(key, v)]
  | (k, w) :: rest, key, v =>
      if k = key then (key, v) :: rest else (k, w) :: dictSet rest key v

/-- Python `if key in d: del d[key]`: remove the binding when present. -/
def dictDelete {α : Type} : List (String × α) → String → List (String × α)
  | [], _ => []
  | (k, v) :: rest, key => if k = key then rest else (k, v) :: dictDelete rest key

def dictKeys {α : Type} (d : List (String × α)) : List String := d.map Prod.fst


/-! ## JSON values and wire protocol lines -/

/-- A parsed JSON value, as handled by json.dumps/json.loads in mcp_client.py. -/
inductive JVal : Type where
  | jstr (s : String)
  | jnum (n : Int)
  | jbool (b : Bool)
  | jarr (xs : List JVal)
  | jobj (fields : List (String × JVal))
  | jnull

/-- One parsed response line read from a provider process's stdout.  The
constructors reflect the only discrimination `_send_request` and its callers
perform on a line: a line whose object has an "error" key, a line whose object
has a "result" key (carrying that result value), or any other line. -/
inductive RpcLine : Type where
  | result (v : JVal)
  | rpcError (e : JVal)
  | other (v : JVal)

/-- One provider subprocess: the poll() liveness flag, the scripted remaining
stdout lines (an empty script means readline() returns "" — closed pipe), and
the log of request lines written to its stdin. -/
structure ProcState : Type where
  alive : Bool
  stdoutScript : List RpcLine
  stdinWrites : List JVal

/-- The heap of subprocesses spawned so far; a pid is an index into it. -/
structure World : Type where
  procs : List ProcState

def listModify {α : Type} : List α → Nat → (α → α) → List α
  | [], _, _ => []
  | x :: rest, 0, f => f x :: rest
  | x :: rest, n + 1, f => x :: listModify rest n f

def World.procAt (w : World) (pid : Nat) : ProcState :=
  (w.procs.get? pid).getD ⟨false, [], []⟩

/-- Writing one request line to the process's stdin (stdin.write + flush). -/
def World.write (w : World) (pid : Nat) (req : JVal) : World :=
  ⟨listModify w.procs pid (fun p => { p with stdinWrites := p.stdinWrites ++ [req] })⟩

/-- stdout.readline(): pop the next scripted line; none models "" (EOF). -/
def World.readLine (w : World) (pid : Nat) : Option RpcLine × World :=
  match (w.procAt pid).stdoutScript with
  | [] => (none, w)
  | line :: rest => (some line, ⟨listModify w.procs pid (fun p => { p with stdoutScript := rest })⟩)

/-- terminate()/kill(): the process is no longer running afterwards. -/
def World.kill (w : World) (pid : Nat) : World :=
  ⟨listModify w.procs pid (fun p => { p with alive := false })⟩

/-! ## MCPClient (mcp_client.py) -/

/-- The state of one MCPClient object. -/
structure MCPClientState : Type where
  serverCommand : List String
  serverName : String
  process : Option Nat
  requestId : Nat
  toolsCache : Option (List JVal)

/-- Errors raised by MCPClient methods: ConnectionError from _send_request,
the generic Exception wrapping a response's error object, and the generic
Exception for a response without a result. -/
inductive MCPError : Type where
  | connectionError (msg : String)
  | providerError (e : JVal)
  | invalidResponse (msg : String)

/-- The JSON-RPC request object built by the client for a given id/method. -/
def rpcRequest (id : Nat) (method : String) (params : Option JVal) : JVal :=
  .jobj ([("jsonrpc", .jstr "2.0"), ("id", .jnum id), ("method", .jstr method)] ++
    (match params with
     | some p => [("params", p)]
     | none => []))

/-- MCPClient._send_request: raise ConnectionError when no process handle,
write the request line, read one response line (raising ConnectionError on
EOF), and raise when the response carries an "error" object. -/
def sendRequest (w : World) (c : MCPClientState) (req : JVal) :
    Except MCPError RpcLine × World :=
  match c.process with
  | none => (.error (.connectionError "MCP服务器进程未运行"), w)
  | some pid =>
    let w1 := w.write pid req
    match w1.readLine pid with
    | (none, w2) => (.error (.connectionError "无法从MCP服务器读取响应"), w2)
    | (some (.rpcError e), w2) => (.error (.providerError e), w2)
    | (some line, w2) => (.ok line, w2)

def initParams : JVal :=
  .jobj [("protocolVersion", .jstr "2024-11-05"),
         ("capabilities", .jobj [("tools", .jobj [])]),
         ("clientInfo", .jobj [("name", .jstr "langchain-agent"), ("version", .jstr "1.0.0")])]

def initRequest (id : Nat) : JVal := rpcRequest id "initialize" (some initParams)

/-- MCPClient.start: spawn the subprocess (spawn = none models Popen itself
raising), send the handshake request, return true on any non-raising
response.  Every exception is caught and turned into a false return — the
process handle set by a successful Popen is NOT cleared on a handshake
failure. -/
def clientStart (w : World) (c : MCPClientState) (spawn : Option ProcState) :
    Bool × World × MCPClientState :=
  match spawn with
  | none => (false, w, c)
  | some p =>
    let pid := w.procs.length
    let w1 : World := ⟨w.procs ++ [p]⟩
    let c1 := { c with process := some pid, requestId := c.requestId + 1 }
    match sendRequest w1 c1 (initRequest c1.requestId) with
    | (.ok _, w2) => (true, w2, c1)
    | (.error _, w2) => (false, w2, c1)

/-- MCPClient.is_alive: process handle set and poll() still None. -/
def isAlive (w : World) (c : MCPClientState) : Bool :=
  match c.process with
  | none => false
  | some pid => (w.procAt pid).alive

/-- How the environment behaves during MCPClient.stop: the wait after
terminate() may time out (then kill() runs), terminate() itself may raise
(caught and logged), or kill() may raise (the exception escapes stop).  In
every case the finally clause clears the process handle. -/
inductive StopEnv : Type where
  | clean
  | waitTimeout
  | terminateRaises
  | killRaises

structure StopResult : Type where
  world : World
  client : MCPClientState
  raised : Bool

/-- MCPClient.stop, translated from the try/except/finally block. -/
def stopClient (env : StopEnv) (w : World) (c : MCPClientState) : StopResult :=
  match c.process with
  | none => ⟨w, c, false⟩
  | some pid =>
    match env with
    | .clean => ⟨w.kill pid, { c with process := none }, false⟩
    | .waitTimeout => ⟨w.kill pid, { c with process := none }, false⟩
    | .terminateRaises => ⟨w, { c with process := none }, false⟩
    | .killRaises => ⟨w, { c with process := none }, true⟩

/-- MCPClient.call_tool: bump the request id, send tools/call, return the
"result" member of the response; raise on a response without one. -/
def callTool (w : World) (c : MCPClientState) (name : String)
    (args : Option (List (String × JVal))) :
    Except MCPError JVal × World × MCPClientState :=
  let c1 := { c with requestId := c.requestId + 1 }
  let params : JVal := .jobj [("name", .jstr name), ("arguments", .jobj (args.getD []))]
  match sendRequest w c1 (rpcRequest c1.requestId "tools/call" (some params)) with
  | (.error e, w2) => (.error e, w2, c1)
  | (.ok (.result r), w2) => (.ok r, w2, c1)
  | (.ok _, w2) => (.error (.invalidResponse "无效的MCP工具响应"), w2, c1)

/-- The value of response["result"].get("tools", []) together with the
failure modes: a non-object result raises AttributeError (caught by
list_tools, which then returns []), and a non-array "tools" value is likewise
routed to the failure path. -/
def toolsOf (v : JVal) : Option (List JVal) :=
  match v with
  | .jobj f =>
    match dictGet? f "tools" with
    | some (.jarr ts) => some ts
    | none => some []
    | some _ => none
  | _ => none

/-- MCPClient.list_tools: serve the cache when present; otherwise send
tools/list, cache and return result.tools, returning [] on any failure or on
a response without a result. -/
def listToolsClient (w : World) (c : MCPClientState) :
    List JVal × World × MCPClientState :=
  match c.toolsCache with
  | some ts => (ts, w, c)
  | none =>
    let c1 := { c with requestId := c.requestId + 1 }
    match sendRequest w c1 (rpcRequest c1.requestId "tools/list" none) with
    | (.error _, w2) => ([], w2, c1)
    | (.ok (.result v), w2) =>
      match toolsOf v with
      | some ts => (ts, w2, { c1 with toolsCache := some ts })
      | none => ([], w2, c1)
    | (.ok _, w2) => ([], w2, c1)

/-! ## MCPServerManager (mcp_server_manager.py) -/

/-- MCPServerConfig: the six constructor fields. -/
structure ServerConfig : Type where
  name : String
  command : List String
  description : String
  autoStart : Bool
  timeout : Nat
  retryCount : Nat
deriving DecidableEq, Repr

/-- The dict produced by MCPServerConfig.to_dict (and consumed by from_dict,
which passes it back to the constructor keyword-for-keyword). -/
structure ConfigDict : Type where
  name : String
  command : List String
  description : String
  auto_start : Bool
  timeout : Nat
  retry_count : Nat
deriving DecidableEq, Repr

def toDict (c : ServerConfig) : ConfigDict :=
  ⟨c.name, c.command, c.description, c.autoStart, c.timeout, c.retryCount⟩

def fromDict (d : ConfigDict) : ServerConfig :=
  ⟨d.name, d.command, d.description, d.auto_start, d.timeout, d.retry_count⟩

/-- MCPServerToolCollection state: the server name, the _tools_cache (a list
of adapter heap ids once loaded), and the _tools_dict name index.  The
collection's mcp_client is the manager's client registered under the same
server name (they are the same object at creation time). -/
structure CollectionState : Type where
  serverName : String
  cache : Option (List Nat)
  toolsDict : List (String × Nat)

/-- MCPServerManager state: the three dicts of the constructor. -/
structure ManagerState : Type where
  servers : List (String × ServerConfig)
  clients : List (String × MCPClientState)
  collections : List (String × CollectionState)

/-- MCPServerManager.register_server. -/
def registerServer (m : ManagerState) (cfg : ServerConfig) : ManagerState :=
  { m with servers := dictSet m.servers cfg.name cfg }

def filesystemConfig : ServerConfig :=
  ⟨"filesystem", ["npx", "-y", "@modelcontextprotocol/server-filesystem", "/tmp"],
   "文件系统访问", false, 30, 3⟩

def githubConfig : ServerConfig :=
  ⟨"github", ["npx", "-y", "@modelcontextprotocol/server-github"], "GitHub集成", false, 30, 3⟩

def gdriveConfig : ServerConfig :=
  ⟨"gdrive", ["npx", "-y", "@modelcontextprotocol/server-gdrive"], "Google Drive集成", false, 30, 3⟩

/-- A freshly constructed MCPServerManager with no config file: empty dicts
followed by _load_default_servers. -/
def freshManager : ManagerState :=
  registerServer (registerServer (registerServer ⟨[], [], []⟩ filesystemConfig)
    githubConfig) gdriveConfig

/-- MCPServerManager.save_config: the "servers" mapping written to the file,
name -> to_dict(config).  JSON serialization is faithful on these fields, so
the file is modelled as the mapping itself. -/
def saveConfig (m : ManagerState) : List (String × ConfigDict) :=
  m.servers.map (fun e => (e.1, toDict e.2))

/-- MCPServerManager.load_config: register from_dict(entry) for every entry
of the file's "servers" mapping (the mapping key itself is ignored;
register_server keys by the config's own name). -/
def loadConfig (m : ManagerState) (file : List (String × ConfigDict)) : ManagerState :=
  file.foldl (fun acc e => registerServer acc (fromDict e.2)) m

/-- One iteration of the retry loop in MCPServerManager.start_server: either
asyncio.wait_for times out (cancelling client.start after it may have spawned
the process and written the handshake, after which the except branch runs
client.stop), or client.start runs to completion with the given spawn
behavior.  Exceptions other than TimeoutError cannot escape client.start,
which catches everything and returns a boolean. -/
inductive AttemptEnv : Type where
  | timesOut (spawn : Option ProcState) (stopEnv : StopEnv)
  | completes (spawn : Option ProcState)

/-- The retry loop of start_server.  On success the client is stored under
the server name together with a fresh MCPServerToolCollection.  After a
timeout the except branch stops the half-started client (a stop that itself
raises escapes the loop and is caught by the outer handler, which returns
false).  An attempt where client.start returns false simply continues: the
code reaches no stop call on that path. -/
def startLoop (m : ManagerState) (name : String) :
    List AttemptEnv → World → MCPClientState → Bool × World × ManagerState
  | [], w, _ => (false, w, m)
  | .timesOut spawn stopEnv :: rest, w, c =>
    let s :=
      match spawn with
      | none => (w, c)
      | some p =>
        let pid := w.procs.length
        let w1 : World := ⟨w.procs ++ [p]⟩
        let c1 := { c with process := some pid, requestId := c.requestId + 1 }
        (w1.write pid (initRequest c1.requestId), c1)
    let r := stopClient stopEnv s.1 s.2
    if r.raised then (false, r.world, m)
    else startLoop m name rest r.world r.client
  | .completes spawn :: rest, w, c =>
    match clientStart w c spawn with
    | (true, w1, c1) =>
      (true, w1,
        { m with clients := dictSet m.clients name c1,
                 collections := dictSet m.collections name ⟨name, none, []⟩ })
    | (false, w1, c1) => startLoop m name rest w1 c1

/-- MCPServerManager.start_server: unknown name returns false; an alive
client short-circuits to true; otherwise a fresh client is driven through up
to retry_count attempts. -/
def startServer (w : World) (m : ManagerState) (name : String)
    (envs : List AttemptEnv) : Bool × World × ManagerState :=
  match dictGet? m.servers name with
  | none => (false, w, m)
  | some cfg =>
    let already := match dictGet? m.clients name with
                   | some c => isAlive w c
                   | none => false
    if already then (true, w, m)
    else
      let c0 : MCPClientState :=
        { serverCommand := cfg.command, serverName := cfg.name,
          process := none, requestId := 0, toolsCache := none }
      startLoop m name (envs.take cfg.retryCount) w c0

/-- MCPServerManager.start_all_auto_servers: start every auto_start server,
collecting the per-name results. -/
def startAllAutoServers (w : World) (m : ManagerState)
    (envs : String → List AttemptEnv) : World × ManagerState × List (String × Bool) :=
  m.servers.foldl
    (fun acc e =>
      if e.2.autoStart then
        let r := startServer acc.1 acc.2.1 e.1 (envs e.1)
        (r.2.1, r.2.2, dictSet acc.2.2 e.1 r.1)
      else acc)
    (w, m, [])

/-- The info dict built for one server by MCPServerManager.list_servers:
config.to_dict() plus the status and tools_count keys. -/
structure ServerInfoD : Type where
  name : String
  command : List String
  description : String
  auto_start : Bool
  timeout : Nat
  retry_count : Nat
  status : String
  tools_count : Nat
deriving DecidableEq, Repr

/-- MCPServerManager.list_servers. -/
def listServers (w : World) (m : ManagerState) : List ServerInfoD :=
  m.servers.map (fun e =>
    let status := match dictGet? m.clients e.1 with
                  | some c => if isAlive w c then "running" else "stopped"
                  | none => "stopped"
    let toolsCount := match dictGet? m.collections e.1 with
                      | some col => (col.cache.getD []).length
                      | none => 0
    { name := e.2.name, command := e.2.command, description := e.2.description,
      auto_start := e.2.autoStart, timeout := e.2.timeout,
      retry_count := e.2.retryCount, status := status, tools_count := toolsCount })

/-! ## MCPToolAdapter and MCPServerToolCollection (mcp_tool_adapter.py) -/

/-- One MCPToolAdapter object: its (mutable) LangChain tool name, its
description, and the raw tool schema it was built from.  Adapters live in an
explicit heap (a list indexed by id) because the registry aliases them: the
renaming in _register_mcp_tool mutates the same object the indices point to. -/
structure AdapterRec : Type where
  name : String
  description : String
  schema : JVal

/-- MCPToolAdapter construction from one schema of the tools/list result:
name and description default when absent; a schema that is not an object or
whose name/description is not a string makes the constructor raise, and the
per-tool except block in load_tools skips that tool. -/
def adapterOfSchema (sc : JVal) : Option AdapterRec :=
  match sc with
  | .jobj fields =>
    match dictGet? fields "name", dictGet? fields "description" with
    | some (.jstr n), some (.jstr d) => some ⟨n, d, sc⟩
    | some (.jstr n), none => some ⟨n, "MCP工具", sc⟩
    | none, some (.jstr d) => some ⟨"mcp_tool", d, sc⟩
    | none, none => some ⟨"mcp_tool", "MCP工具", sc⟩
    | _, _ => none
  | _ => none

/-- tool_schema.get("inputSchema", {}).get("properties", {}) as a list of
(field name, field info) pairs; defaults to empty when missing or malformed
(a malformed schema makes create_dynamic_pydantic_model raise, and the
adapter then falls back to a model with no declared fields). -/
def inputProps (schema : JVal) : List (String × JVal) :=
  match schema with
  | .jobj f =>
    match dictGet? f "inputSchema" with
    | some (.jobj g) =>
      match dictGet? g "properties" with
      | some (.jobj props) => props
      | _ => []
    | _ => []
  | _ => []

/-- tool_schema.get("inputSchema", {}).get("required", []): the declared
required field names (non-string entries never equal a field name). -/
def requiredList (schema : JVal) : List String :=
  match schema with
  | .jobj f =>
    match dictGet? f "inputSchema" with
    | some (.jobj g) =>
      match dictGet? g "required" with
      | some (.jarr xs) => xs.filterMap (fun x => match x with | .jstr s => some s | _ => none)
      | _ => []
    | _ => []
  | _ => []

/-- The semantic runtime type create_dynamic_pydantic_model assigns to a
declared JSON type (default: string). -/
inductive PyFieldType : Type where
  | pyStr | pyFloat | pyInt | pyBool | pyList | pyDict
deriving DecidableEq, Repr

def fieldTypeOf (jsonType : String) : PyFieldType :=
  if jsonType = "string" then .pyStr
  else if jsonType = "number" then .pyFloat
  else if jsonType = "integer" then .pyInt
  else if jsonType = "boolean" then .pyBool
  else if jsonType = "array" then .pyList
  else if jsonType = "object" then .pyDict
  else .pyStr

/-- One field of the generated pydantic model: its name, runtime type, and
whether create_dynamic_pydantic_model marked it required (Field(...)). -/
structure CompiledField : Type where
  name : String
  ftype : PyFieldType
  required : Bool
deriving DecidableEq, Repr

/-- The fields of the pydantic model generated for a tool schema. -/
def compileFields (schema : JVal) : List CompiledField :=
  (inputProps schema).map (fun e =>
    let jsonType := match e.2 with
                    | .jobj fi =>
                      match dictGet? fi "type" with
                      | some (.jstr t) => t
                      | _ => "string"
                    | _ => "string"
    { name := e.1, ftype := fieldTypeOf jsonType,
      required := e.1 ∈ requiredList schema })

/-- Modelled from the spec: the argument check the external pydantic layer
performs against the generated model before the tool body runs ("Required
fields missing from supplied arguments fail validation before any network
interaction").  Returns the first required field absent from the supplied
arguments, none when validation passes. -/
def firstMissingRequired (fields : List CompiledField) (args : List (String × JVal)) :
    Option String :=
  (fields.find? (fun f => f.required && (dictGet? args f.name).isNone)).map (fun f => f.name)

def noContentMsg : String := "工具执行完成，但未返回内容"

def execFailMsg (toolName cause : String) : String :=
  "MCP工具 " ++ toolName ++ " 执行失败: " ++ cause

/-- The message str(e) of an exception raised below _arun (the exact
rendering of the provider's error object is immaterial here). -/
def errText : MCPError → String
  | .connectionError msg => msg
  | .providerError _ => "MCP服务器错误"
  | .invalidResponse msg => msg

/-- The content parts collected from a content list: dict items contribute
their "text" member (whatever its type), plain strings contribute
themselves, everything else is skipped. -/
def contentPartsOf (items : List JVal) : List JVal :=
  items.filterMap (fun it =>
    match it with
    | .jobj fields => dictGet? fields "text"
    | .jstr s => some (.jstr s)
    | _ => none)

/-- "\n".join succeeds only when every part is a string. -/
def allStrings : List JVal → Option (List String)
  | [] => some []
  | .jstr s :: rest => (allStrings rest).map (fun ss => s :: ss)
  | _ :: _ => none

/-- What _arun produces: a string, or (off the declared str return type) the
raw non-string value of a single content block's "text" member. -/
inductive ArunResult : Type where
  | text (s : String)
  | raw (v : JVal)

/-- The result-processing block of MCPToolAdapter._arun, applied to the
value of a successful tools/call.  A non-empty content list is joined with
newlines ("\n".join raising TypeError on a non-string part is caught by the
outer handler); an empty list is falsy and falls through to the no-content
message, as does a content value of any unhandled type.  Membership tests on
non-container results raise TypeError, caught by the outer handler. -/
def handleResult (toolName : String) (result : JVal) : ArunResult :=
  match result with
  | .jobj fields =>
    match dictGet? fields "content" with
    | some (.jarr items) =>
      if items.isEmpty then .text noContentMsg
      else
        match allStrings (contentPartsOf items) with
        | some ss => .text (String.intercalate "\n" ss)
        | none => .text (execFailMsg toolName "TypeError")
    | some (.jobj f2) =>
      match dictGet? f2 "text" with
      | some (.jstr s) => .text s
      | some v => .raw v
      | none => .text noContentMsg
    | some (.jstr s) => .text s
    | some _ => .text noContentMsg
    | none => .text noContentMsg
  | .jarr xs =>
    if xs.any (fun x => match x with | .jstr s => s = "content" | _ => false)
    then .text (execFailMsg toolName "TypeError") else .text noContentMsg
  | .jstr s =>
    if (s.splitOn "content").length ≠ 1
    then .text (execFailMsg toolName "TypeError") else .text noContentMsg
  | _ => .text (execFailMsg toolName "TypeError")

/-- MCPToolAdapter._arun: check the bound client's liveness, call the tool,
normalize the result; every exception becomes a returned failure string. -/
def adapterArun (w : World) (c : MCPClientState) (ad : AdapterRec)
    (args : List (String × JVal)) : ArunResult × World × MCPClientState :=
  if isAlive w c = false then
    (.text (execFailMsg ad.name "MCP客户端未连接"), w, c)
  else
    match callTool w c ad.name (some args) with
    | (.ok result, w1, c1) => (handleResult ad.name result, w1, c1)
    | (.error e, w1, c1) => (.text (execFailMsg ad.name (errText e)), w1, c1)

/-- The outcome of invoking the adapter through the LangChain BaseTool entry
point: either the argument validation rejects the call before _arun runs, or
_arun's result is returned. -/
inductive InvokeOutcome : Type where
  | validationError (field : String)
  | output (r : ArunResult)

/-- Modelled from the spec: BaseTool validates the supplied arguments against
the generated pydantic model and only then dispatches to _arun ("ValidationError
is raised before any process interaction"). -/
def adapterRun (w : World) (c : MCPClientState) (ad : AdapterRec)
    (args : List (String × JVal)) : InvokeOutcome × World × MCPClientState :=
  match firstMissingRequired (compileFields ad.schema) args with
  | some f => (.validationError f, w, c)
  | none =>
    let r := adapterArun w c ad args
    (.output r.1, r.2.1, r.2.2)

/-! ## MCPRegistry (mcp_registry.py) -/

/-- MCPRegistry state: the forward name -> adapter-id map (_mcp_tools), the
reverse server -> tool-name index (_mcp_tools_by_server), and the set of
loaded servers. -/
structure RegistrySt : Type where
  tools : List (String × Nat)
  byServer : List (String × List String)
  loadedServers : List String
deriving DecidableEq, Repr

/-- The whole tool-integration subsystem: the subprocess world, the server
manager, the adapter heap, and the registry. -/
structure SysState : Type where
  world : World
  mgr : ManagerState
  adapters : List AdapterRec
  reg : RegistrySt

def listSet {α : Type} (l : List α) (i : Nat) (x : α) : List α :=
  listModify l i (fun _ => x)

/-- The name under which _register_mcp_tool inserts adapter tid for a
server: the adapter's own name, or "{server}_{name}" when that name already
keys the forward map. -/
def registerFinalName (s : SysState) (tid : Nat) (server : String) : String :=
  let a := (s.adapters.get? tid).getD ⟨"", "", .jnull⟩
  if (dictGet? s.reg.tools a.name).isSome then server ++ "_" ++ a.name else a.name

/-- MCPRegistry._register_mcp_tool: when the adapter's name already keys the
forward map, the adapter object is renamed to "{server}_{name}" in place;
the (possibly renamed) name is then bound in the forward map — replacing any
existing binding of that name — and appended to the server's reverse list. -/
def registerMcpTool (s : SysState) (tid : Nat) (server : String) : SysState :=
  let a := (s.adapters.get? tid).getD ⟨"", "", .jnull⟩
  let collide := (dictGet? s.reg.tools a.name).isSome
  let finalName := registerFinalName s tid server
  let adapters := if collide then listSet s.adapters tid { a with name := finalName }
                  else s.adapters
  let prev := (dictGet? s.reg.byServer server).getD []
  { s with
    adapters := adapters,
    reg := { s.reg with
      tools := dictSet s.reg.tools finalName tid,
      byServer := dictSet s.reg.byServer server (prev ++ [finalName]) } }

/-- MCPServerToolCollection.load_tools: serve the cache; otherwise fetch the
schema list through the aliased client, build an adapter per schema (the
per-tool except skips a schema the constructor rejects), record them in the
heap, the cache and _tools_dict. -/
def collectionLoadTools (s : SysState) (key : String) : List Nat × SysState :=
  match dictGet? s.mgr.collections key with
  | none => ([], s)
  | some col =>
    match col.cache with
    | some ids => (ids, s)
    | none =>
      match dictGet? s.mgr.clients key with
      | none => ([], s)
      | some c =>
        let r := listToolsClient s.world c
        let newAdapters := r.1.filterMap adapterOfSchema
        let ids := List.range' s.adapters.length newAdapters.length
        let toolsDict := (newAdapters.zip ids).foldl
          (fun d a => dictSet d a.1.name a.2) col.toolsDict
        let col1 := { col with cache := some ids, toolsDict := toolsDict }
        (ids,
         { s with world := r.2.1,
                  adapters := s.adapters ++ newAdapters,
                  mgr := { s.mgr with
                    clients := dictSet s.mgr.clients key r.2.2,
                    collections := dictSet s.mgr.collections key col1 } })

def loadedAdd (l : List String) (x : String) : List String :=
  if x ∈ l then l else l ++ [x]

/-- MCPRegistry.load_server_tools: ensure the server's client is alive
(starting it when needed, returning [] when that fails), load the
collection's tools, register every returned adapter, and mark the server
loaded.  Note that the registration loop runs on every call, cached or not. -/
def loadServerTools (s : SysState) (server : String) (envs : List AttemptEnv) :
    List Nat × SysState :=
  let needStart := match dictGet? s.mgr.clients server with
                   | some c => !(isAlive s.world c)
                   | none => true
  let step : Bool × SysState :=
    if needStart then
      let r := startServer s.world s.mgr server envs
      (r.1, { s with world := r.2.1, mgr := r.2.2 })
    else (true, s)
  if step.1 = false then ([], step.2)
  else
    let s1 := step.2
    match dictGet? s1.mgr.collections server with
    | none => ([], s1)
    | some _ =>
      let r := collectionLoadTools s1 server
      let s2 := r.1.foldl (fun acc tid => registerMcpTool acc tid server) r.2
      let s3 := { s2 with reg :=
        { s2.reg with loadedServers := loadedAdd s2.reg.loadedServers server } }
      (r.1, s3)

/-- MCPRegistry.unload_server_tools: delete every name of the server's
reverse list from the forward map, drop the reverse entry and the loaded
mark; returns the number of unloaded names. -/
def unloadServerTools (s : SysState) (server : String) : Nat × SysState :=
  match dictGet? s.reg.byServer server with
  | none => (0, s)
  | some names =>
    (names.length,
     { s with reg :=
       { tools := names.foldl (fun t nm => dictDelete t nm) s.reg.tools,
         byServer := dictDelete s.reg.byServer server,
         loadedServers := s.reg.loadedServers.filter (fun x => x ≠ server) } })

/-- MCPRegistry.unload_all_tools. -/
def unloadAllTools (s : SysState) : SysState :=
  (dictKeys s.reg.byServer).foldl (fun acc server => (unloadServerTools acc server).2) s

/-- A Python value as it appears in the load_all_tools loop: either a string
(a server name) or one of the info dicts returned by list_servers. -/
inductive PyVal : Type where
  | pyStr (s : String)
  | pyDict (info : ServerInfoD)

/-- Python ==: values of distinct built-in types (str vs dict) never compare
equal. -/
def pyEq : PyVal → PyVal → Bool
  | .pyStr a, .pyStr b => a == b
  | .pyDict a, .pyDict b => a == b
  | _, _ => false

/-- The body of the load_all_tools loop for one iteration variable "info"
(which, because list_servers returns a list of dicts, is an info dict, not a
name): look for an info dict sv with sv["name"] == info — a str-vs-dict
comparison — and, when found and running, load that server's tools and record
the count (in Python that branch would additionally fail on keying a dict). -/
def loadAllStep (envs : String → List AttemptEnv)
    (acc : List (String × Nat) × SysState) (info : ServerInfoD) :
    List (String × Nat) × SysState :=
  match (listServers acc.2.world acc.2.mgr).find?
      (fun sv => pyEq (.pyStr sv.name) (.pyDict info)) with
  | some sv =>
    if sv.status = "running" then
      let r2 := loadServerTools acc.2 sv.name (envs sv.name)
      (dictSet acc.1 sv.name r2.1.length, r2.2)
    else acc
  | none => acc

/-- MCPRegistry.load_all_tools: start all auto-start servers, then run the
loop above over the info dicts returned by list_servers. -/
def loadAllTools (s : SysState) (envs : String → List AttemptEnv) :
    List (String × Nat) × SysState :=
  let r := startAllAutoServers s.world s.mgr envs
  let s1 := { s with world := r.1, mgr := r.2.1 }
  (listServers s1.world s1.mgr).foldl (loadAllStep envs) ([], s1)

/-- MCPRegistry.reload_tools: unload everything, then load_all_tools. -/
def reloadTools (s : SysState) (envs : String → List AttemptEnv) :
    List (String × Nat) × SysState :=
  loadAllTools (unloadAllTools s) envs

/-! ## The forward/reverse index invariant -/

/-- All tool names across every server's reverse list, with multiplicity. -/
def reverseNames (reg : RegistrySt) : List String :=
  (reg.byServer.map Prod.snd).flatten

/-- The bidirectional index invariant of the spec: every forward-map key
occurs exactly once across all reverse lists (one owning provider, no
duplicates), and every name in a reverse list keys the forward map (no
orphans). -/
def RegInv (reg : RegistrySt) : Prop :=
  (∀ k ∈ dictKeys reg.tools, (reverseNames reg).count k = 1) ∧
  (∀ nm ∈ reverseNames reg, nm ∈ dictKeys reg.tools)

instance (reg : RegistrySt) : Decidable (RegInv reg) := by
  unfold RegInv; infer_instance

/-- The manager invariant that every config is registered under its own
name (register_server keys servers by config.name). -/
def KeysMatch (m : ManagerState) : Prop := ∀ e ∈ m.servers, e.2.name = e.1

instance (m : ManagerState) : Decidable (KeysMatch m) := by
  unfold KeysMatch; infer_instance

/-! ## Concrete scenario states used by the claim theorems -/

/-- A provider config named srv with a single retry. -/
def c1Config : ServerConfig := ⟨"srv", ["python", "server.py"], "", true, 30, 1⟩

/-- A manager knowing only srv, nothing running. -/
def c1Mgr : ManagerState := ⟨[("srv", c1Config)], [], []⟩

/-- A spawned provider process that stays alive but never answers. -/
def silentProc : ProcState := ⟨true, [], []⟩

/-- A tools/list schema declaring one tool with the given name. -/
def oneToolSchema (n : String) : JVal :=
  .jobj [("name", .jstr n), ("description", .jstr "")]

/-- A live provider process scripted to answer tools/list with one tool. -/
def oneToolProc (n : String) : ProcState :=
  ⟨true, [.result (.jobj [("tools", .jarr [oneToolSchema n])])], []⟩

/-- A dead provider whose stdout is at EOF: the closed-pipe scenario. -/
def c5World : World := ⟨[⟨false, [], []⟩]⟩

def c5Client : MCPClientState := ⟨["cmd"], "srv", some 0, 0, none⟩

/-- A live provider whose next response line carries an error object. -/
def c5ErrWorld : World := ⟨[⟨true, [.rpcError (.jstr "boom")], []⟩]⟩

/-- The system of the C2 scenario: provider srv running with a client on
pid 0 scripted to declare one tool named ping; registry empty. -/
def c2Sys : SysState :=
  ⟨⟨[oneToolProc "ping"]⟩,
   ⟨[("srv", ⟨"srv", ["cmd"], "", true, 30, 3⟩)],
    [("srv", ⟨["cmd"], "srv", some 0, 0, none⟩)],
    [("srv", ⟨"srv", none, []⟩)]⟩,
   [], ⟨[], [], []⟩⟩

/-- A live provider process scripted to answer tools/list with the given
tool names. -/
def listToolsProc (ns : List String) : ProcState :=
  ⟨true, [.result (.jobj [("tools", .jarr (ns.map oneToolSchema))])], []⟩

/-- The adapter built from a one-name tool schema. -/
def oneToolAdapter (x : String) : AdapterRec := ⟨x, "", oneToolSchema x⟩

/-- The system of the C4 scenario: two configured providers, each with a
live client (pids 0 and 1) scripted to declare its own list of tool names;
registry empty, nothing loaded yet. -/
def twoServerSysL (p1 p2 : String) (ns1 ns2 : List String) : SysState :=
  ⟨⟨[listToolsProc ns1, listToolsProc ns2]⟩,
   ⟨[(p1, ⟨p1, ["cmd"], "", true, 30, 3⟩), (p2, ⟨p2, ["cmd"], "", true, 30, 3⟩)],
    [(p1, ⟨["cmd"], p1, some 0, 0, none⟩), (p2, ⟨["cmd"], p2, some 1, 0, none⟩)],
    [(p1, ⟨p1, none, []⟩), (p2, ⟨p2, none, []⟩)]⟩,
   [], ⟨[], [], []⟩⟩

/-- The system of the C4 counterexample: provider A declares tools search
and B_search, provider B declares search, so B's collision rename collides
again with A's second tool. -/
def c4CexSys : SysState := twoServerSysL "A" "B" ["search", "B_search"] ["search"]

/-- The name under which a tool named x ends up when registered against a
forward map with keys T0: renamed when x is already a key. -/
def renameIfIn (server : String) (T0 : List String) (x : String) : String :=
  if x ∈ T0 then server ++ "_" ++ x else x

/-- The system of the C6 counterexample: provider A is already loaded with
tools "search" and "B_search"; provider B is configured and running (pid 0)
and declares a tool "search", whose collision rename will collide again. -/
def c6Sys : SysState :=
  ⟨⟨[oneToolProc "search"]⟩,
   ⟨[("B", ⟨"B", ["cmd"], "", true, 30, 3⟩)],
    [("B", ⟨["cmd"], "B", some 0, 0, none⟩)],
    [("B", ⟨"B", none, []⟩)]⟩,
   [⟨"search", "", oneToolSchema "search"⟩, ⟨"B_search", "", oneToolSchema "B_search"⟩],
   ⟨[("search", 0), ("B_search", 1)], [("A", ["search", "B_search"])], ["A"]⟩⟩

/-- A world holding one live process scripted to answer the next request
with the given result payload. -/
def oneShotWorld (payload : JVal) : World := ⟨[⟨true, [.result payload], []⟩]⟩

def oneShotClient : MCPClientState := ⟨["cmd"], "srv", some 0, 0, none⟩

/-- A content block of the two kinds _arun's join handles: a dict block
carrying a "text" member, or a plain string. -/
inductive CBlock : Type where
  | objText (t : String)
  | plainStr (t : String)

def CBlock.val : CBlock → JVal
  | .objText t => .jobj [("type", .jstr "text"), ("text", .jstr t)]
  | .plainStr t => .jstr t

def CBlock.text : CBlock → String
  | .objText t => t
  | .plainStr t => t

/-- The tool schema of the C7 witness: one required string field msg. -/
def pingToolSchema : JVal :=
  .jobj [("name", .jstr "ping"), ("description", .jstr "ping tool"),
         ("inputSchema", .jobj [
            ("type", .jstr "object"),
            ("properties", .jobj [("msg", .jobj [("type", .jstr "string")])]),
            ("required", .jarr [.jstr "msg"])])]

/-! ## Association-list dictionary lemmas -/

theorem dictGet?_eq_none {α : Type} (d : List (String × α)) (k : String) :
    dictGet? d k = none ↔ k ∉ dictKeys d := by
  induction d with
  | nil => simp [dictGet?, dictKeys]
  | cons e rest ih =>
    obtain ⟨k0, v0⟩ := e
    by_cases h : k0 = k
    · subst h; simp [dictGet?, dictKeys]
    · simp [dictGet?, dictKeys, h, ih, Ne.symm h]

theorem dictGet?_set_self {α : Type} (d : List (String × α)) (k : String) (v : α) :
    dictGet? (dictSet d k v) k = some v := by
  induction d with
  | nil => simp [dictGet?, dictSet]
  | cons e rest ih =>
    obtain ⟨k0, v0⟩ := e
    by_cases h : k0 = k
    · subst h; simp [dictGet?, dictSet]
    · simp [dictGet?, dictSet, h, ih]

theorem dictGet?_set_ne {α : Type} (d : List (String × α)) (k key : String) (v : α)
    (h : k ≠ key) : dictGet? (dictSet d k v) key = dictGet? d key := by
  induction d with
  | nil => simp [dictGet?, dictSet, h]
  | cons e rest ih =>
    obtain ⟨k0, v0⟩ := e
    by_cases h0 : k0 = k
    · subst h0; simp [dictGet?, dictSet, h]
    · by_cases h1 : k0 = key
      · subst h1; simp [dictGet?, dictSet, h0]
      · simp [dictGet?, dictSet, h0, h1, ih]

theorem dictSet_of_not_mem {α : Type} (d : List (String × α)) (k : String) (v : α)
    (h : k ∉ dictKeys d) : dictSet d k v = d ++ [(k, v)] := by
  induction d with
  | nil => simp [dictSet]
  | cons e rest ih =>
    obtain ⟨k0, v0⟩ := e
    simp only [dictKeys, List.map_cons, List.mem_cons] at h
    push_neg at h
    simp [dictSet, Ne.symm h.1, ih h.2]

theorem dictKeys_set_of_mem {α : Type} (d : List (String × α)) (k : String) (v : α)
    (h : k ∈ dictKeys d) : dictKeys (dictSet d k v) = dictKeys d := by
  induction d with
  | nil => simp [dictKeys] at h
  | cons e rest ih =>
    obtain ⟨k0, v0⟩ := e
    by_cases h0 : k0 = k
    · subst h0; simp [dictSet, dictKeys]
    · simp only [dictKeys, List.map_cons, List.mem_cons] at h
      rcases h with h | h
      · exact absurd h.symm h0
      · simp only [dictSet, if_neg h0, dictKeys, List.map_cons]
        have := ih h
        simp only [dictKeys] at this
        rw [this]

theorem dictKeys_delete {α : Type} (d : List (String × α)) (k : String) :
    dictKeys (dictDelete d k) = (dictKeys d).erase k := by
  induction d with
  | nil => simp [dictDelete, dictKeys]
  | cons e rest ih =>
    obtain ⟨k0, v0⟩ := e
    by_cases h : k0 = k
    · subst h; simp [dictDelete, dictKeys, List.erase_cons]
    · have := ih
      simp only [dictKeys] at this
      simp [dictDelete, dictKeys, List.erase_cons, h, this]

/-! ## Support lemmas about the process world -/

theorem listModify_get?_self {α : Type} (l : List α) (i : Nat) (f : α → α) :
    (listModify l i f).get? i = (l.get? i).map f := by
  induction l generalizing i with
  | nil => simp [listModify]
  | cons x rest ih =>
    cases i with
    | zero => simp [listModify]
    | succ n => simpa [listModify] using ih n

theorem listModify_get?_ne {α : Type} (l : List α) (i j : Nat) (f : α → α)
    (h : i ≠ j) : (listModify l i f).get? j = l.get? j := by
  induction l generalizing i j with
  | nil => simp [listModify]
  | cons x rest ih =>
    cases i with
    | zero =>
      cases j with
      | zero => exact absurd rfl h
      | succ m => simp [listModify]
    | succ n =>
      cases j with
      | zero => simp [listModify]
      | succ m => simpa [listModify] using ih n m (by omega)

theorem procAt_write_self (w : World) (pid : Nat) (req : JVal) (p : ProcState)
    (hp : w.procs.get? pid = some p) :
    (w.write pid req).procAt pid = { p with stdinWrites := p.stdinWrites ++ [req] } := by
  unfold World.write World.procAt
  rw [listModify_get?_self, hp]
  rfl

/-! ## C10 -/

/-- C10: on every path through MCPClient.stop's try/except/finally —
including the path where terminate() raised — the process handle ends up
cleared, is_alive() is false afterwards, and a subsequent _send_request
raises ConnectionError without touching any pipe (the world is unchanged). -/
theorem C10_stop_always_clears_process_handle (env : StopEnv) (w : World)
    (c : MCPClientState) (req : JVal) :
    ((stopClient env w c).client.process = none) ∧
    (isAlive (stopClient env w c).world (stopClient env w c).client = false) ∧
    ((sendRequest (stopClient env w c).world (stopClient env w c).client req).1
      = .error (.connectionError "MCP服务器进程未运行")) ∧
    ((sendRequest (stopClient env w c).world (stopClient env w c).client req).2
      = (stopClient env w c).world) := by
  obtain ⟨cmd, nm, proc, rid, cache⟩ := c
  cases proc with
  | none => cases env <;> exact ⟨rfl, rfl, rfl, rfl⟩
  | some pid => cases env <;> exact ⟨rfl, rfl, rfl, rfl⟩

/-! ## C3 -/

theorem find?_pyEq_none (l : List ServerInfoD) (info : ServerInfoD) :
    l.find? (fun sv => pyEq (.pyStr sv.name) (.pyDict info)) = none := by
  apply List.find?_eq_none.mpr
  intro x _
  simp [pyEq]

theorem foldl_loadAllStep_fixed (envs : String → List AttemptEnv)
    (l : List ServerInfoD) (acc : List (String × Nat) × SysState) :
    l.foldl (loadAllStep envs) acc = acc := by
  induction l generalizing acc with
  | nil => rfl
  | cons info rest ih =>
    simp only [List.foldl_cons]
    rw [show loadAllStep envs acc info = acc from by
      simp [loadAllStep, find?_pyEq_none]]
    exact ih acc

/-- C3: load_all_tools never loads anything.  It iterates over the info
dicts returned by list_servers while comparing each dict against the string
s["name"], a comparison that is false for every pair in Python; so for every
input state the returned per-server count mapping is empty and the registry
and adapter heap are untouched (only the auto-start side effect happens).
This contradicts the claim that every running provider's tools are loaded
and counted. -/
theorem C3_load_all_tools_loads_nothing (s : SysState)
    (envs : String → List AttemptEnv) :
    (loadAllTools s envs).1 = [] ∧
    (loadAllTools s envs).2.reg = s.reg ∧
    (loadAllTools s envs).2.adapters = s.adapters := by
  unfold loadAllTools
  rw [foldl_loadAllStep_fixed]
  exact ⟨rfl, rfl, rfl⟩

/-! ## C1 -/

/-- C1: with one configured attempt, a provider process that spawns but
never answers the handshake makes client.start return false (the exception
is caught inside start), so start_server's except-branch stop never runs:
start_server returns false with the provider reported stopped, yet the
half-started subprocess spawned by the failed attempt is still alive —
contradicting the claim that it is force-stopped before giving up. -/
theorem C1_failed_start_leaves_live_process :
    (startServer ⟨[]⟩ c1Mgr "srv" [.completes (some silentProc)]).1 = false ∧
    (startServer ⟨[]⟩ c1Mgr "srv" [.completes (some silentProc)]).2.1.procs.length = 1 ∧
    ((startServer ⟨[]⟩ c1Mgr "srv" [.completes (some silentProc)]).2.1.procAt 0).alive = true ∧
    dictGet? (startServer ⟨[]⟩ c1Mgr "srv" [.completes (some silentProc)]).2.2.clients "srv"
      = none ∧
    (listServers (startServer ⟨[]⟩ c1Mgr "srv" [.completes (some silentProc)]).2.1
        (startServer ⟨[]⟩ c1Mgr "srv" [.completes (some silentProc)]).2.2).map
        ServerInfoD.status = ["stopped"] := by
  exact ⟨rfl, rfl, rfl, rfl, rfl⟩

/-! ## C2 -/

/-- C2: loading srv's tools twice is not idempotent.  The first call yields
the forward map [("ping", 0)] and reverse index [("srv", ["ping"])].  The
second call returns the cached adapter ids but re-registers them: the cached
adapter's name collides with its own forward-map entry, the adapter is
renamed to srv_ping, and both indices grow a duplicate entry — contradicting
the claim that a repeated call leaves both indices unchanged. -/
theorem C2_second_load_mutates_indices :
    ((loadServerTools c2Sys "srv" []).2.reg.tools = [("ping", 0)]) ∧
    ((loadServerTools c2Sys "srv" []).2.reg.byServer = [("srv", ["ping"])]) ∧
    ((loadServerTools (loadServerTools c2Sys "srv" []).2 "srv" []).1 = [0]) ∧
    ((loadServerTools (loadServerTools c2Sys "srv" []).2 "srv" []).2.reg.tools
      = [("ping", 0), ("srv_ping", 0)]) ∧
    ((loadServerTools (loadServerTools c2Sys "srv" []).2 "srv" []).2.reg.byServer
      = [("srv", ["ping", "srv_ping"])]) ∧
    ((loadServerTools (loadServerTools c2Sys "srv" []).2 "srv" []).2.adapters.map
        AdapterRec.name = ["srv_ping"]) := by
  exact ⟨rfl, rfl, rfl, rfl, rfl, rfl⟩

/-! ## C5 -/

/-- C5 counterexample: a call on a client whose dead process yields no
response raises ConnectionError, but the client is NOT marked dead — the
process handle is still set — and the next call writes to the dead process's
stdin again (two writes logged after two calls), contradicting the claim
that further calls fail fast without another write. -/
theorem C5_counterexample_no_dead_marking :
    ((callTool c5World c5Client "ping" none).1
      = .error (.connectionError "无法从MCP服务器读取响应")) ∧
    ((callTool c5World c5Client "ping" none).2.2.process = some 0) ∧
    (((callTool c5World c5Client "ping" none).2.1.procAt 0).stdinWrites.length = 1) ∧
    (((callTool (callTool c5World c5Client "ping" none).2.1
        (callTool c5World c5Client "ping" none).2.2 "ping" none).2.1.procAt 0).stdinWrites.length
      = 2) := by
  exact ⟨rfl, rfl, rfl, rfl⟩

/-- C5 (amended): call_tool raises on a response carrying an error object,
propagating the provider's error, and on receiving no response (closed pipe)
it raises ConnectionError — but the client is not marked dead: the process
handle is unchanged and the failing call itself already wrote one more
request line to the dead process's stdin, so nothing prevents further
writes. -/
theorem C5_error_propagation_and_no_dead_marking :
    (∀ (w : World) (c : MCPClientState) (pid : Nat) (p : ProcState) (e : JVal)
        (rest : List RpcLine) (name : String) (args : Option (List (String × JVal))),
      c.process = some pid →
      w.procs.get? pid = some p →
      p.stdoutScript = .rpcError e :: rest →
      (callTool w c name args).1 = .error (.providerError e)) ∧
    (∀ (w : World) (c : MCPClientState) (pid : Nat) (p : ProcState)
        (name : String) (args : Option (List (String × JVal))),
      c.process = some pid →
      w.procs.get? pid = some p →
      p.stdoutScript = [] →
      (callTool w c name args).1 = .error (.connectionError "无法从MCP服务器读取响应") ∧
      (callTool w c name args).2.2.process = some pid ∧
      ((callTool w c name args).2.1.procAt pid).stdinWrites.length
        = p.stdinWrites.length + 1) := by
  constructor
  · intro w c pid p e rest name args hproc hp hscript
    unfold callTool sendRequest
    simp only [hproc]
    rw [World.readLine, procAt_write_self w pid _ p hp, hscript]
  · intro w c pid p name args hproc hp hscript
    unfold callTool sendRequest
    simp only [hproc]
    rw [World.readLine, procAt_write_self w pid _ p hp, hscript]
    refine ⟨rfl, rfl, ?_⟩
    rw [procAt_write_self w pid _ p hp]
    simp

/-- Witness for C5: the amended theorem applied to the concrete error-object
world and the concrete closed-pipe world. -/
theorem C5_amended_witness :
    ((callTool c5ErrWorld c5Client "ping" none).1
      = .error (.providerError (.jstr "boom"))) ∧
    ((callTool c5World c5Client "ping" none).1
      = .error (.connectionError "无法从MCP服务器读取响应") ∧
     (callTool c5World c5Client "ping" none).2.2.process = some 0 ∧
     ((callTool c5World c5Client "ping" none).2.1.procAt 0).stdinWrites.length = 0 + 1) :=
  ⟨C5_error_propagation_and_no_dead_marking.1 c5ErrWorld c5Client 0
      ⟨true, [.rpcError (.jstr "boom")], []⟩ (.jstr "boom") [] "ping" none rfl rfl rfl,
   C5_error_propagation_and_no_dead_marking.2 c5World c5Client 0
      ⟨false, [], []⟩ "ping" none rfl rfl rfl⟩

/-! ## C7 -/

/-- C7: for a tool whose schema declares a required field (present among the
declared properties), invoking the adapter with arguments omitting that
field is rejected by the generated model's validation before _arun runs: the
outcome is a validation error and both the world and the client are
untouched — in particular no request line is ever written, so the client's
call method is never invoked. -/
theorem C7_missing_required_field_blocks_call
    (w : World) (c : MCPClientState) (ad : AdapterRec)
    (args : List (String × JVal)) (f : String)
    (hprop : f ∈ (inputProps ad.schema).map Prod.fst)
    (hreq : f ∈ requiredList ad.schema)
    (hmiss : dictGet? args f = none) :
    (∃ g, (adapterRun w c ad args).1 = .validationError g) ∧
    (adapterRun w c ad args).2.1 = w ∧
    (adapterRun w c ad args).2.2 = c := by
  have hex : ∃ cf ∈ compileFields ad.schema,
      (cf.required && (dictGet? args cf.name).isNone) = true := by
    obtain ⟨e, he, hname⟩ := List.mem_map.mp hprop
    refine ⟨_, List.mem_map.mpr ⟨e, he, rfl⟩, ?_⟩
    simp [hname, hreq, hmiss]
  have hsome : ((compileFields ad.schema).find?
      (fun f0 => f0.required && (dictGet? args f0.name).isNone)).isSome := by
    rw [List.find?_isSome]
    obtain ⟨cf, hcf, hpred⟩ := hex
    exact ⟨cf, hcf, hpred⟩
  obtain ⟨cf0, hfind⟩ := Option.isSome_iff_exists.mp hsome
  have hfirst : firstMissingRequired (compileFields ad.schema) args = some cf0.name := by
    unfold firstMissingRequired
    rw [hfind]
    rfl
  unfold adapterRun
  rw [hfirst]
  exact ⟨⟨cf0.name, rfl⟩, rfl, rfl⟩

def c7Adapter : AdapterRec := ⟨"ping", "ping tool", pingToolSchema⟩

/-- Witness for C7: the ping tool's required msg field, omitted from empty
arguments, blocks the call on a concrete live stub world. -/
theorem C7_witness :
    ("msg" ∈ (inputProps pingToolSchema).map Prod.fst) ∧
    ("msg" ∈ requiredList pingToolSchema) ∧
    (dictGet? ([] : List (String × JVal)) "msg" = none) ∧
    ((∃ g, (adapterRun (oneShotWorld .jnull) oneShotClient c7Adapter []).1
        = .validationError g) ∧
     (adapterRun (oneShotWorld .jnull) oneShotClient c7Adapter []).2.1
        = oneShotWorld .jnull ∧
     (adapterRun (oneShotWorld .jnull) oneShotClient c7Adapter []).2.2
        = oneShotClient) :=
  ⟨by decide, by decide, rfl,
   C7_missing_required_field_blocks_call (oneShotWorld .jnull) oneShotClient
     c7Adapter [] "msg" (by decide) (by decide) rfl⟩

/-! ## C8 -/

theorem contentPartsOf_blocks (bs : List CBlock) :
    contentPartsOf (bs.map CBlock.val) = bs.map (fun b => JVal.jstr b.text) := by
  induction bs with
  | nil => rfl
  | cons b rest ih =>
    cases b with
    | objText t =>
      simp only [contentPartsOf] at ih
      simp [contentPartsOf, CBlock.val, CBlock.text, dictGet?, ih]
    | plainStr t =>
      simp only [contentPartsOf] at ih
      simp [contentPartsOf, CBlock.val, CBlock.text, ih]

theorem allStrings_map_jstr (ss : List String) :
    allStrings (ss.map JVal.jstr) = some ss := by
  induction ss with
  | nil => rfl
  | cons s rest ih => simp [allStrings, ih]

theorem handleResult_blocks (toolName : String) (bs : List CBlock) (hbs : bs ≠ []) :
    handleResult toolName (.jobj [("content", .jarr (bs.map CBlock.val))])
      = .text (String.intercalate "\n" (bs.map CBlock.text)) := by
  obtain ⟨b0, rest, rfl⟩ := List.exists_cons_of_ne_nil hbs
  show (if ((b0 :: rest).map CBlock.val).isEmpty = true then ArunResult.text noContentMsg
    else match allStrings (contentPartsOf ((b0 :: rest).map CBlock.val)) with
      | some ss => .text (String.intercalate "\n" ss)
      | none => .text (execFailMsg toolName "TypeError")) = _
  rw [contentPartsOf_blocks]
  rw [show ((b0 :: rest).map (fun b => JVal.jstr b.text))
        = ((b0 :: rest).map CBlock.text).map JVal.jstr from (List.map_map _ _ _).symm]
  rw [allStrings_map_jstr]
  rfl

theorem adapterArun_oneShot (ad : AdapterRec) (args : List (String × JVal))
    (payload : JVal) :
    (adapterArun (oneShotWorld payload) oneShotClient ad args).1
      = handleResult ad.name payload := rfl

/-- C8: on a successful tools/call the adapter normalizes the result into a
single text string: a bare string content value is returned as is, a single
text block yields its text, and a non-empty list of heterogeneous content
blocks (dict blocks carrying text, plain strings) yields the blocks' texts
joined with newlines. -/
theorem C8_result_normalization :
    (∀ (ad : AdapterRec) (args : List (String × JVal)) (s : String),
       (adapterArun (oneShotWorld (.jobj [("content", .jstr s)])) oneShotClient ad args).1
         = .text s) ∧
    (∀ (ad : AdapterRec) (args : List (String × JVal)) (t : String),
       (adapterArun (oneShotWorld (.jobj [("content", .jobj [("text", .jstr t)])]))
         oneShotClient ad args).1 = .text t) ∧
    (∀ (ad : AdapterRec) (args : List (String × JVal)) (bs : List CBlock), bs ≠ [] →
       (adapterArun (oneShotWorld (.jobj [("content", .jarr (bs.map CBlock.val))]))
         oneShotClient ad args).1
         = .text (String.intercalate "\n" (bs.map CBlock.text))) := by
  refine ⟨fun ad args s => rfl, fun ad args t => rfl, fun ad args bs hbs => ?_⟩
  rw [adapterArun_oneShot]
  exact handleResult_blocks ad.name bs hbs

/-- Witness for C8: a dict text block and a plain string block are joined
with a newline. -/
theorem C8_witness :
    ([CBlock.objText "a", CBlock.plainStr "b"] ≠ ([] : List CBlock)) ∧
    (adapterArun (oneShotWorld (.jobj [("content",
        .jarr ([CBlock.objText "a", CBlock.plainStr "b"].map CBlock.val))]))
      oneShotClient ⟨"t", "", .jnull⟩ []).1 = .text "a\nb" := by
  constructor
  · intro h
    exact List.cons_ne_nil _ _ h
  · have h := C8_result_normalization.2.2 ⟨"t", "", .jnull⟩ []
      [CBlock.objText "a", CBlock.plainStr "b"] (List.cons_ne_nil _ _)
    rw [h]
    rfl

/-! ## C4 -/

/-- A renamed tool name {server}_{name} is never equal to the bare name. -/
theorem rename_ne (server nm : String) : server ++ "_" ++ nm ≠ nm := by
  intro h
  have hl := congrArg String.length h
  rw [String.length_append, String.length_append] at hl
  have h1 : ("_" : String).length = 1 := rfl
  omega

theorem string_append_left_cancel (s x y : String) (h : s ++ x = s ++ y) :
    x = y := by
  have hd := congrArg String.data h
  simp only [String.data_append] at hd
  exact String.ext (List.append_cancel_left hd)

theorem rename_inj (server x y : String)
    (h : server ++ "_" ++ x = server ++ "_" ++ y) : x = y :=
  string_append_left_cancel (server ++ "_") x y h

theorem dictSet_dictSet {α : Type} (d : List (String × α)) (k : String) (v w : α) :
    dictSet (dictSet d k v) k w = dictSet d k w := by
  induction d with
  | nil => simp [dictSet]
  | cons e rest ih =>
    obtain ⟨k0, v0⟩ := e
    by_cases h : k0 = k
    · subst h; simp [dictSet]
    · simp [dictSet, h, ih]

theorem listModify_length {α : Type} (l : List α) (i : Nat) (f : α → α) :
    (listModify l i f).length = l.length := by
  induction l generalizing i with
  | nil => rfl
  | cons x rest ih =>
    cases i with
    | zero => rfl
    | succ n => simpa [listModify] using ih n

theorem adapters_of_oneTool (ns : List String) :
    (ns.map oneToolSchema).filterMap adapterOfSchema = ns.map oneToolAdapter := by
  induction ns with
  | nil => rfl
  | cons x rest ih =>
    simp only [List.map_cons, List.filterMap_cons, ih]
    rfl

theorem count_substitution (p2n n : String) (ns : List String) (hne : p2n ∉ ns) :
    (ns.map (fun x => if x = n then p2n else x)).count p2n = ns.count n := by
  induction ns with
  | nil => rfl
  | cons x rest ih =>
    simp only [List.mem_cons] at hne
    push_neg at hne
    by_cases hx : x = n
    · subst hx
      rw [List.map_cons, if_pos rfl, List.count_cons_self, List.count_cons_self,
        ih hne.2]
    · rw [List.map_cons, if_neg hx, List.count_cons_of_ne hne.1,
        List.count_cons_of_ne (fun h => hx h.symm), ih hne.2]

theorem mem_dictKeys_iff_isSome {α : Type} (d : List (String × α)) (k : String) :
    k ∈ dictKeys d ↔ (dictGet? d k).isSome := by
  rw [Option.isSome_iff_ne_none]
  constructor
  · intro h hnone
    exact (dictGet?_eq_none d k).mp hnone h
  · intro h
    by_contra hmem
    exact h ((dictGet?_eq_none d k).mpr hmem)

theorem registerMcpTool_explicit (s : SysState) (tid : Nat) (server : String)
    (a0 : AdapterRec) (hget : s.adapters.get? tid = some a0) :
    registerMcpTool s tid server =
      { s with
        adapters := if a0.name ∈ dictKeys s.reg.tools
                    then listSet s.adapters tid
                      { a0 with name := renameIfIn server (dictKeys s.reg.tools) a0.name }
                    else s.adapters,
        reg := { s.reg with
          tools := dictSet s.reg.tools
            (renameIfIn server (dictKeys s.reg.tools) a0.name) tid,
          byServer := dictSet s.reg.byServer server
            ((dictGet? s.reg.byServer server).getD []
              ++ [renameIfIn server (dictKeys s.reg.tools) a0.name]) } } := by
  unfold registerMcpTool registerFinalName
  rw [hget]
  simp only [Option.getD_some]
  by_cases hx : a0.name ∈ dictKeys s.reg.tools
  · have hs : (dictGet? s.reg.tools a0.name).isSome = true :=
      (mem_dictKeys_iff_isSome _ _).mp hx
    rw [hs]
    simp [renameIfIn, hx, listSet]
  · have hs : (dictGet? s.reg.tools a0.name).isSome = false := by
      rw [← Bool.not_eq_true]
      exact fun hcon => hx ((mem_dictKeys_iff_isSome _ _).mpr hcon)
    rw [hs]
    simp [renameIfIn, hx, listSet]

/-- The effect of the _register_mcp_tool loop run by load_server_tools over
freshly created adapters (heap slots base, base+1, ...): under the freshness
conditions of the collision-rename design — the adapters' names are distinct
and a rename never equals an existing key or a declared name — each tool is
inserted under renameIfIn of its name against the keys at the start, the
forward map grows by exactly those names (nothing overwritten), the reverse
list of the server gets exactly those names appended, and everything else is
untouched. -/
theorem registerFold_general (server : String) (xs : List String) :
    ∀ (s : SysState) (base : Nat),
      xs.Nodup →
      (∀ i (hi : i < xs.length),
        (s.adapters.get? (base + i)).map AdapterRec.name = some (xs.get ⟨i, hi⟩)) →
      (∀ x ∈ xs, x ∈ dictKeys s.reg.tools →
        (server ++ "_" ++ x) ∉ dictKeys s.reg.tools ∧
          ∀ y ∈ xs, (server ++ "_" ++ x) ≠ y) →
      (dictKeys ((List.range' base xs.length).foldl
          (fun acc tid => registerMcpTool acc tid server) s).reg.tools
        = dictKeys s.reg.tools ++ xs.map (renameIfIn server (dictKeys s.reg.tools))) ∧
      (∀ y, y ∉ xs.map (renameIfIn server (dictKeys s.reg.tools)) →
        dictGet? ((List.range' base xs.length).foldl
          (fun acc tid => registerMcpTool acc tid server) s).reg.tools y
          = dictGet? s.reg.tools y) ∧
      (∀ i (hi : i < xs.length),
        dictGet? ((List.range' base xs.length).foldl
          (fun acc tid => registerMcpTool acc tid server) s).reg.tools
          (renameIfIn server (dictKeys s.reg.tools) (xs.get ⟨i, hi⟩))
          = some (base + i)) ∧
      (xs ≠ [] →
        ((List.range' base xs.length).foldl
          (fun acc tid => registerMcpTool acc tid server) s).reg.byServer
        = dictSet s.reg.byServer server
            ((dictGet? s.reg.byServer server).getD []
              ++ xs.map (renameIfIn server (dictKeys s.reg.tools)))) ∧
      (((List.range' base xs.length).foldl
          (fun acc tid => registerMcpTool acc tid server) s).reg.loadedServers
        = s.reg.loadedServers) ∧
      (((List.range' base xs.length).foldl
          (fun acc tid => registerMcpTool acc tid server) s).adapters.length
        = s.adapters.length) ∧
      (((List.range' base xs.length).foldl
          (fun acc tid => registerMcpTool acc tid server) s).world = s.world) ∧
      (((List.range' base xs.length).foldl
          (fun acc tid => registerMcpTool acc tid server) s).mgr = s.mgr) := by
  induction xs with
  | nil =>
    intro s base _ _ _
    exact ⟨by simp, fun y _ => rfl, fun i hi => absurd hi (by simp),
      fun h => absurd rfl h, rfl, rfl, rfl, rfl⟩
  | cons x rest ih =>
    intro s base hnodup hadapt hfresh
    obtain ⟨hxrest, hndrest⟩ := List.nodup_cons.mp hnodup
    -- the adapter at slot base is named x
    have h0 := hadapt 0 (by simp)
    rw [Nat.add_zero] at h0
    cases hget : s.adapters.get? base with
    | none => rw [hget] at h0; simp at h0
    | some a0 =>
      rw [hget] at h0
      have h0n : a0.name = x := by simpa using h0
      have hreg := registerMcpTool_explicit s base server a0 hget
      rw [h0n] at hreg
      set T0 := dictKeys s.reg.tools with hT0
      set fn := renameIfIn server T0 x with hfn
      have hfnT0 : fn ∉ T0 := by
        rw [hfn, renameIfIn]
        by_cases hxT : x ∈ T0
        · rw [if_pos hxT]
          exact (hfresh x (List.mem_cons_self x rest) hxT).1
        · rw [if_neg hxT]
          exact hxT
      have hfn_ne_rest : ∀ y ∈ rest, fn ≠ y := by
        intro y hy
        rw [hfn, renameIfIn]
        by_cases hxT : x ∈ T0
        · rw [if_pos hxT]
          exact (hfresh x (List.mem_cons_self x rest) hxT).2 y (List.mem_cons_of_mem x hy)
        · rw [if_neg hxT]
          intro hcon
          exact hxrest (hcon ▸ hy)
      have hs1tools : (registerMcpTool s base server).reg.tools = dictSet s.reg.tools fn base := by rw [hreg]
      have hs1keys : dictKeys (registerMcpTool s base server).reg.tools = T0 ++ [fn] := by
        rw [hs1tools, dictSet_of_not_mem _ _ _ hfnT0]
        simp [dictKeys, hT0]
      have hs1by : (registerMcpTool s base server).reg.byServer = dictSet s.reg.byServer server
          ((dictGet? s.reg.byServer server).getD [] ++ [fn]) := by rw [hreg]
      have hs1loaded : (registerMcpTool s base server).reg.loadedServers = s.reg.loadedServers := by rw [hreg]
      have hs1world : (registerMcpTool s base server).world = s.world := by
        rw [hreg]
      have hs1mgr : (registerMcpTool s base server).mgr = s.mgr := by rw [hreg]
      have hs1adlen : (registerMcpTool s base server).adapters.length = s.adapters.length := by
        rw [hreg]
        by_cases hxT : x ∈ T0
        · simp only [if_pos hxT, listSet, listModify_length]
        · simp only [if_neg hxT]
      have hs1get : ∀ j, j ≠ base → (registerMcpTool s base server).adapters.get? j = s.adapters.get? j := by
        intro j hj
        rw [hreg]
        by_cases hxT : x ∈ T0
        · simp only [if_pos hxT, listSet]
          exact listModify_get?_ne _ _ _ _ (fun h => hj h.symm)
        · simp only [if_neg hxT]
      -- pointwise: renaming against T0 and against T0 ++ [fn] agree on rest
      have hpoint : ∀ y ∈ rest, renameIfIn server (T0 ++ [fn]) y = renameIfIn server T0 y := by
        intro y hy
        unfold renameIfIn
        have hyfn : y ≠ fn := fun h => hfn_ne_rest y hy h.symm
        by_cases hyT : y ∈ T0
        · rw [if_pos hyT, if_pos (List.mem_append_left _ hyT)]
        · rw [if_neg hyT, if_neg ?_]
          rw [List.mem_append]
          rintro (h | h)
          · exact hyT h
          · rw [List.mem_singleton] at h
            exact hyfn h
      have hmap : rest.map (renameIfIn server (dictKeys (registerMcpTool s base server).reg.tools))
          = rest.map (renameIfIn server T0) := by
        rw [hs1keys]
        exact List.map_congr_left hpoint
      -- the freshness package for the tail
      have hfresh1 : ∀ y ∈ rest, y ∈ dictKeys (registerMcpTool s base server).reg.tools →
          (server ++ "_" ++ y) ∉ dictKeys (registerMcpTool s base server).reg.tools ∧
            ∀ z ∈ rest, (server ++ "_" ++ y) ≠ z := by
        intro y hy hyT1
        rw [hs1keys, List.mem_append] at hyT1
        have hyT : y ∈ T0 := by
          rcases hyT1 with h | h
          · exact h
          · rw [List.mem_singleton] at h
            exact absurd h.symm (hfn_ne_rest y hy)
        obtain ⟨hrT0, hrxs⟩ := hfresh y (List.mem_cons_of_mem x hy) hyT
        refine ⟨?_, fun z hz => hrxs z (List.mem_cons_of_mem x hz)⟩
        rw [hs1keys, List.mem_append]
        rintro (h | h)
        · exact hrT0 h
        · rw [List.mem_singleton] at h
          rw [hfn, renameIfIn] at h
          by_cases hxT : x ∈ T0
          · rw [if_pos hxT] at h
            exact hxrest (rename_inj server y x h ▸ hy)
          · rw [if_neg hxT] at h
            exact hrxs x (List.mem_cons_self x rest) h
      -- adapter slots for the tail
      have hadapt1 : ∀ i (hi : i < rest.length),
          ((registerMcpTool s base server).adapters.get? (base + 1 + i)).map AdapterRec.name
            = some (rest.get ⟨i, hi⟩) := by
        intro i hi
        rw [hs1get (base + 1 + i) (by omega)]
        have := hadapt (i + 1) (by simpa using Nat.succ_lt_succ hi)
        rw [show base + (i + 1) = base + 1 + i from by omega] at this
        simpa using this
      obtain ⟨ik, ig, ii, ib, il, ia, iw, im⟩ := ih (registerMcpTool s base server) (base + 1) hndrest hadapt1 hfresh1
      have hfold : (List.range' base (x :: rest).length).foldl
          (fun acc tid => registerMcpTool acc tid server) s
          = (List.range' (base + 1) rest.length).foldl
            (fun acc tid => registerMcpTool acc tid server) (registerMcpTool s base server) := by
        simp [List.range', List.foldl_cons]
      have hrl : (x :: rest).map (renameIfIn server T0)
          = fn :: rest.map (renameIfIn server T0) := by
        simp [hfn]
      have hfn_not_rl : fn ∉ rest.map (renameIfIn server T0) := by
        rw [List.mem_map]
        rintro ⟨y, hy, hyeq⟩
        rw [renameIfIn] at hyeq
        by_cases hyT : y ∈ T0
        · rw [if_pos hyT] at hyeq
          obtain ⟨hrT0, hrxs⟩ := hfresh y (List.mem_cons_of_mem x hy) hyT
          rw [hfn, renameIfIn] at hyeq
          by_cases hxT : x ∈ T0
          · rw [if_pos hxT] at hyeq
            exact hxrest (rename_inj server y x hyeq ▸ hy)
          · rw [if_neg hxT] at hyeq
            exact hrxs x (List.mem_cons_self x rest) hyeq
        · rw [if_neg hyT] at hyeq
          exact hfn_ne_rest y hy hyeq.symm
      refine ⟨?_, ?_, ?_, ?_, ?_, ?_, ?_, ?_⟩
      · rw [hfold, ik, hmap, hs1keys, hrl, List.append_assoc]
        rfl
      · intro y hy
        rw [hrl, List.mem_cons] at hy
        push_neg at hy
        rw [hfold, ig y (by rw [hmap]; exact hy.2), hs1tools,
          dictGet?_set_ne _ _ _ _ (fun h => hy.1 h.symm)]
      · intro i hi
        match i with
        | 0 =>
          show dictGet? _ (renameIfIn server T0 x) = some (base + 0)
          rw [← hfn, Nat.add_zero, hfold, ig fn (by rw [hmap]; exact hfn_not_rl),
            hs1tools, dictGet?_set_self]
        | j + 1 =>
          have hj : j < rest.length := by simpa using Nat.lt_of_succ_lt_succ hi
          show dictGet? _ (renameIfIn server T0 ((x :: rest).get ⟨j + 1, hi⟩))
            = some (base + (j + 1))
          have hgetj : (x :: rest).get ⟨j + 1, hi⟩ = rest.get ⟨j, hj⟩ := rfl
          rw [hgetj, ← hpoint (rest.get ⟨j, hj⟩) (rest.get_mem j hj), ← hs1keys, hfold]
          rw [show base + (j + 1) = base + 1 + j from by omega]
          exact ii j hj
      · intro _
        rw [hfold]
        by_cases hrest : rest = []
        · subst hrest
          simp only [List.length_nil, List.range', List.foldl_nil]
          rw [hs1by, hrl]
          rfl
        · rw [ib hrest, hs1by, hmap, dictGet?_set_self, Option.getD_some,
            dictSet_dictSet, hrl, List.append_assoc]
          rfl
      · rw [hfold, il, hs1loaded]
      · rw [hfold, ia, hs1adlen]
      · rw [hfold, iw, hs1world]
      · rw [hfold, im, hs1mgr]


/-! ## C4 -/

/-- With the server's client alive (pid scripted to answer tools/list with ns)
and both the client-side and collection-side caches cold, load_server_tools
reaches the registration loop: it appends one adapter per declared tool,
advances the request id, fills both caches, folds _register_mcp_tool over the
fresh adapter ids, and marks the server loaded; the pid's process stays alive
and every other process is untouched. -/
theorem loadServerTools_ready
    (s : SysState) (server : String) (pid : Nat)
    (c : MCPClientState) (col : CollectionState) (ns : List String)
    (hc : dictGet? s.mgr.clients server = some c)
    (hp : c.process = some pid)
    (hcache : c.toolsCache = none)
    (hproc : s.world.procs.get? pid = some (listToolsProc ns))
    (hcol : dictGet? s.mgr.collections server = some col)
    (hcolcache : col.cache = none) :
    ∃ (w2 : World) (cl2 : MCPClientState) (col2 : CollectionState),
      (loadServerTools s server [] =
        (List.range' s.adapters.length ns.length,
         (fun s2 => { s2 with reg := { s2.reg with
             loadedServers := loadedAdd s2.reg.loadedServers server } })
           ((List.range' s.adapters.length ns.length).foldl
             (fun acc tid => registerMcpTool acc tid server)
             { s with
                world := w2,
                adapters := s.adapters ++ ns.map oneToolAdapter,
                mgr := { s.mgr with
                  clients := dictSet s.mgr.clients server cl2,
                  collections := dictSet s.mgr.collections server col2 } }))) ∧
      w2.procs.length = s.world.procs.length ∧
      (∀ j, j ≠ pid → w2.procs.get? j = s.world.procs.get? j) ∧
      ((w2.procAt pid).alive = true) := by
  refine ⟨⟨listModify (listModify s.world.procs pid
      (fun p => { p with stdinWrites := p.stdinWrites
          ++ [rpcRequest (c.requestId + 1) "tools/list" none] })) pid
      (fun p => { p with stdoutScript := [] })⟩,
    { c with requestId := c.requestId + 1, toolsCache := some (ns.map oneToolSchema) },
    { col with
      cache := some (List.range' s.adapters.length ns.length)
      toolsDict := ((ns.map oneToolAdapter).zip
          (List.range' s.adapters.length ns.length)).foldl
        (fun d a => dictSet d a.1.name a.2) col.toolsDict },
    ?_, ?_, ?_, ?_⟩
  · have halive : isAlive s.world c = true := by
      simp only [isAlive, hp, World.procAt, hproc, Option.getD_some, listToolsProc]
    simp only [loadServerTools, collectionLoadTools, listToolsClient, sendRequest,
      World.write, World.readLine, World.procAt, listToolsProc, toolsOf,
      hc, halive, hp, hcache, hproc, hcol, hcolcache, adapters_of_oneTool,
      Option.getD_some, Option.map_some', Bool.not_true, Bool.false_eq_true,
      Bool.true_eq_false, if_false, if_true, ite_false, ite_true, List.length_map,
      listModify_get?_self, listModify_length, dictGet?]
  · rw [listModify_length, listModify_length]
  · intro j hj
    rw [listModify_get?_ne _ _ _ _ (fun h => hj h.symm),
      listModify_get?_ne _ _ _ _ (fun h => hj h.symm)]
  · unfold World.procAt
    rw [listModify_get?_self, listModify_get?_self, hproc]
    rfl

/-- The adapter slot appended for the i-th declared tool carries that tool's
name. -/
theorem adapters_slot (pre : List AdapterRec) (ns : List String) (i : Nat)
    (hi : i < ns.length) :
    ((pre ++ ns.map oneToolAdapter).get? (pre.length + i)).map AdapterRec.name
      = some (ns.get ⟨i, hi⟩) := by
  rw [List.get?_append_right (by omega)]
  rw [show pre.length + i - pre.length = i from by omega]
  rw [List.get?_map, List.get?_eq_get (by simpa using hi)]
  rfl

/-- Renaming against an empty forward map changes nothing. -/
theorem map_renameIfIn_nil (server : String) (ns : List String) :
    ns.map (renameIfIn server []) = ns := by
  induction ns with
  | nil => rfl
  | cons a t ih => simp [renameIfIn, ih]

/-- C4 counterexample: provider A declares tools "search" and "B_search",
provider B declares "search"; after loading both, B's "search" is renamed to
"B_search", which collides again with A's second tool and silently overwrites
its forward-map entry: only two tools remain registered, not 2 + 1 as the
claim's count equation requires. -/
theorem C4_counterexample_rename_drops_tool :
    ((loadServerTools (loadServerTools c4CexSys "A" []).2 "B" []).2.reg.tools
      = [("search", 0), ("B_search", 2)]) ∧
    ¬((loadServerTools
        (loadServerTools c4CexSys "A" []).2 "B" []).2.reg.tools.length
      = 2 + 1) := ⟨rfl, by decide⟩

/-- C4 (amended): when two providers share exactly one tool name n and the
rename "{p2}_{n}" collides with neither provider's declared names, loading
both yields exactly one registered tool under n — the first provider's
adapter — and exactly one under "{p2}_{n}" — the second provider's — with no
tool dropped: the total equals the sum of the two declared counts, and the
reverse map records the first provider's names verbatim and the second's with
the shared name rewritten.  The unrestricted claim fails when the renamed
name collides again with an existing key. -/
theorem C4_collision_rename_yields_both_tools (p1 p2 n : String) (ns1 ns2 : List String) (hp : p1 ≠ p2)
    (h1 : ns1.Nodup) (h2 : ns2.Nodup) (hn1 : n ∈ ns1) (hn2 : n ∈ ns2)
    (hshared : ∀ x, x ∈ ns1 → x ∈ ns2 → x = n)
    (hf1 : (p2 ++ "_" ++ n) ∉ ns1) (hf2 : (p2 ++ "_" ++ n) ∉ ns2) :
    ((dictKeys (loadServerTools (loadServerTools
        (twoServerSysL p1 p2 ns1 ns2) p1 []).2 p2 []).2.reg.tools).count n = 1) ∧
    ((dictKeys (loadServerTools (loadServerTools
        (twoServerSysL p1 p2 ns1 ns2) p1 []).2 p2 []).2.reg.tools).count
      (p2 ++ "_" ++ n) = 1) ∧
    ((loadServerTools (loadServerTools
        (twoServerSysL p1 p2 ns1 ns2) p1 []).2 p2 []).2.reg.tools.length
      = ns1.length + ns2.length) ∧
    (∀ i (hi : i < ns1.length), ns1.get ⟨i, hi⟩ = n →
      dictGet? (loadServerTools (loadServerTools
        (twoServerSysL p1 p2 ns1 ns2) p1 []).2 p2 []).2.reg.tools n = some i) ∧
    (∀ j (hj : j < ns2.length), ns2.get ⟨j, hj⟩ = n →
      dictGet? (loadServerTools (loadServerTools
          (twoServerSysL p1 p2 ns1 ns2) p1 []).2 p2 []).2.reg.tools
        (p2 ++ "_" ++ n) = some (ns1.length + j)) ∧
    ((loadServerTools (loadServerTools
        (twoServerSysL p1 p2 ns1 ns2) p1 []).2 p2 []).2.reg.byServer
      = [(p1, ns1),
         (p2, ns2.map (fun x => if x = n then p2 ++ "_" ++ n else x))]) := by
  have hp2 : p2 ≠ p1 := Ne.symm hp
  obtain ⟨w2, cl2, col2, heq1, hlen1, hget1, halive1⟩ :=
    loadServerTools_ready (twoServerSysL p1 p2 ns1 ns2) p1 0
      ⟨["cmd"], p1, some 0, 0, none⟩ ⟨p1, none, []⟩ ns1
      (by simp [twoServerSysL, dictGet?]) rfl rfl rfl
      (by simp [twoServerSysL, dictGet?]) rfl
  obtain ⟨k1, g1, i1, b1, l1, a1, w1, m1⟩ :=
    registerFold_general p1 ns1
      { twoServerSysL p1 p2 ns1 ns2 with
          world := w2
          adapters := (twoServerSysL p1 p2 ns1 ns2).adapters
            ++ ns1.map oneToolAdapter
          mgr := { (twoServerSysL p1 p2 ns1 ns2).mgr with
              clients :=
                dictSet (twoServerSysL p1 p2 ns1 ns2).mgr.clients p1 cl2
              collections :=
                dictSet (twoServerSysL p1 p2 ns1 ns2).mgr.collections p1 col2 } }
      (twoServerSysL p1 p2 ns1 ns2).adapters.length
      h1
      (fun i hi => by
        have := adapters_slot (twoServerSysL p1 p2 ns1 ns2).adapters ns1 i hi
        exact this)
      (fun x _ hmem => by simp [twoServerSysL, dictKeys] at hmem)
  have hmgr1 : (loadServerTools (twoServerSysL p1 p2 ns1 ns2) p1 []).2.mgr
      = { (twoServerSysL p1 p2 ns1 ns2).mgr with
          clients := dictSet (twoServerSysL p1 p2 ns1 ns2).mgr.clients p1 cl2
          collections :=
            dictSet (twoServerSysL p1 p2 ns1 ns2).mgr.collections p1 col2 } := by
    rw [heq1]; exact m1
  have hworld1 : (loadServerTools (twoServerSysL p1 p2 ns1 ns2) p1 []).2.world
      = w2 := by
    rw [heq1]; exact w1
  have hc2m : dictGet?
      (loadServerTools (twoServerSysL p1 p2 ns1 ns2) p1 []).2.mgr.clients p2
      = some ⟨["cmd"], p2, some 1, 0, none⟩ := by
    rw [hmgr1]
    show dictGet? (dictSet (twoServerSysL p1 p2 ns1 ns2).mgr.clients p1 cl2) p2
      = _
    rw [dictGet?_set_ne _ _ _ _ hp]
    simp [twoServerSysL, dictGet?, hp, hp2]
  have hcol2m : dictGet?
      (loadServerTools (twoServerSysL p1 p2 ns1 ns2) p1 []).2.mgr.collections p2
      = some ⟨p2, none, []⟩ := by
    rw [hmgr1]
    show dictGet?
      (dictSet (twoServerSysL p1 p2 ns1 ns2).mgr.collections p1 col2) p2 = _
    rw [dictGet?_set_ne _ _ _ _ hp]
    simp [twoServerSysL, dictGet?, hp, hp2]
  have hproc2m : (loadServerTools
        (twoServerSysL p1 p2 ns1 ns2) p1 []).2.world.procs.get? 1
      = some (listToolsProc ns2) := by
    rw [hworld1, hget1 1 one_ne_zero]
    rfl
  obtain ⟨w3, cl3, col3, heq2, hlen2, hget2, halive2⟩ :=
    loadServerTools_ready (loadServerTools (twoServerSysL p1 p2 ns1 ns2) p1 []).2
      p2 1 ⟨["cmd"], p2, some 1, 0, none⟩ ⟨p2, none, []⟩ ns2
      hc2m rfl rfl hproc2m hcol2m rfl
  have hkeys1 : dictKeys
      (loadServerTools (twoServerSysL p1 p2 ns1 ns2) p1 []).2.reg.tools = ns1 := by
    rw [heq1]
    refine k1.trans ?_
    show [] ++ ns1.map (renameIfIn p1 []) = ns1
    rw [List.nil_append, map_renameIfIn_nil]
  have hby1 : (loadServerTools
      (twoServerSysL p1 p2 ns1 ns2) p1 []).2.reg.byServer = [(p1, ns1)] := by
    rw [heq1]
    refine (b1 (List.ne_nil_of_mem hn1)).trans ?_
    show dictSet [] p1 ([] ++ ns1.map (renameIfIn p1 [])) = [(p1, ns1)]
    rw [List.nil_append, map_renameIfIn_nil]
    rfl
  have hadlen1 : (loadServerTools
      (twoServerSysL p1 p2 ns1 ns2) p1 []).2.adapters.length = ns1.length := by
    rw [heq1]
    refine a1.trans ?_
    show ((twoServerSysL p1 p2 ns1 ns2).adapters
      ++ ns1.map oneToolAdapter).length = ns1.length
    simp [twoServerSysL]
  obtain ⟨k2, g2, i2, b2, l2, a2, wp2, m2⟩ :=
    registerFold_general p2 ns2
      { (loadServerTools (twoServerSysL p1 p2 ns1 ns2) p1 []).2 with
          world := w3
          adapters := (loadServerTools (twoServerSysL p1 p2 ns1 ns2) p1 []).2.adapters
            ++ ns2.map oneToolAdapter
          mgr := { (loadServerTools (twoServerSysL p1 p2 ns1 ns2) p1 []).2.mgr with
              clients := dictSet
                (loadServerTools (twoServerSysL p1 p2 ns1 ns2) p1 []).2.mgr.clients
                p2 cl3
              collections := dictSet
                (loadServerTools
                  (twoServerSysL p1 p2 ns1 ns2) p1 []).2.mgr.collections
                p2 col3 } }
      (loadServerTools (twoServerSysL p1 p2 ns1 ns2) p1 []).2.adapters.length
      h2
      (fun i hi => adapters_slot
        (loadServerTools (twoServerSysL p1 p2 ns1 ns2) p1 []).2.adapters ns2 i hi)
      (fun x hx hmem => by
        have hmem1 : x ∈ ns1 := by rw [← hkeys1]; exact hmem
        have hxn : x = n := hshared x hmem1 hx
        subst hxn
        refine ⟨fun hcon => ?_, fun y hy hne => ?_⟩
        · have : (p2 ++ "_" ++ x) ∈ ns1 := by rw [← hkeys1]; exact hcon
          exact hf1 this
        · exact hf2 (hne ▸ hy))
  have hrename : ns2.map (renameIfIn p2 ns1)
      = ns2.map (fun x => if x = n then p2 ++ "_" ++ n else x) := by
    apply List.map_congr_left
    intro x hx
    by_cases hxn : x = n
    · subst hxn; simp [renameIfIn, hn1]
    · have hxnot : x ∉ ns1 := fun hmem => hxn (hshared x hmem hx)
      simp [renameIfIn, hxnot, hxn]
  have hnotmap : n ∉ ns2.map (renameIfIn p2 ns1) := by
    rw [hrename]
    intro hmem
    obtain ⟨x, hx, hxe⟩ := List.mem_map.mp hmem
    by_cases hxn : x = n
    · rw [if_pos hxn] at hxe
      rw [← hxe] at hn1
      exact hf1 hn1
    · rw [if_neg hxn] at hxe
      exact hxn hxe
  have hkeys2 : dictKeys (loadServerTools (loadServerTools
      (twoServerSysL p1 p2 ns1 ns2) p1 []).2 p2 []).2.reg.tools
      = ns1 ++ ns2.map (renameIfIn p2 ns1) := by
    rw [heq2]
    refine k2.trans ?_
    show dictKeys (loadServerTools (twoServerSysL p1 p2 ns1 ns2) p1 []).2.reg.tools
        ++ ns2.map (renameIfIn p2
          (dictKeys (loadServerTools
            (twoServerSysL p1 p2 ns1 ns2) p1 []).2.reg.tools))
      = ns1 ++ ns2.map (renameIfIn p2 ns1)
    rw [hkeys1]
  have hnot1 : n ∉ ns2.map (renameIfIn p2
      (dictKeys (loadServerTools
        (twoServerSysL p1 p2 ns1 ns2) p1 []).2.reg.tools)) := by
    rw [hkeys1]; exact hnotmap
  have hg2n : dictGet? (loadServerTools (loadServerTools
        (twoServerSysL p1 p2 ns1 ns2) p1 []).2 p2 []).2.reg.tools n
      = dictGet? (loadServerTools
        (twoServerSysL p1 p2 ns1 ns2) p1 []).2.reg.tools n := by
    rw [heq2]
    exact g2 n hnot1
  refine ⟨?_, ?_, ?_, ?_, ?_, ?_⟩
  · rw [hkeys2, List.count_append]
    rw [List.count_eq_one_of_mem h1 hn1, List.count_eq_zero.mpr hnotmap]
  · rw [hkeys2, List.count_append, hrename]
    rw [List.count_eq_zero.mpr hf1,
      count_substitution _ n ns2 hf2, List.count_eq_one_of_mem h2 hn2]
  · have hc := congrArg List.length hkeys2
    rw [List.length_append, List.length_map] at hc
    have h0 : (dictKeys (loadServerTools (loadServerTools
        (twoServerSysL p1 p2 ns1 ns2) p1 []).2 p2 []).2.reg.tools).length
        = (loadServerTools (loadServerTools
          (twoServerSysL p1 p2 ns1 ns2) p1 []).2 p2 []).2.reg.tools.length :=
      List.length_map _ _
    rw [h0] at hc
    exact hc
  · intro i hi hgi
    have h : dictGet? (loadServerTools
          (twoServerSysL p1 p2 ns1 ns2) p1 []).2.reg.tools
        (renameIfIn p1 (dictKeys (twoServerSysL p1 p2 ns1 ns2).reg.tools)
          (ns1.get ⟨i, hi⟩))
        = some ((twoServerSysL p1 p2 ns1 ns2).adapters.length + i) := by
      rw [heq1]; exact i1 i hi
    rw [hgi] at h
    rw [show dictKeys (twoServerSysL p1 p2 ns1 ns2).reg.tools
        = ([] : List String) from rfl] at h
    rw [show renameIfIn p1 [] n = n from by simp [renameIfIn]] at h
    rw [show (twoServerSysL p1 p2 ns1 ns2).adapters.length = 0 from rfl,
      Nat.zero_add] at h
    rw [hg2n]
    exact h
  · intro j hj hgj
    have h : dictGet? (loadServerTools (loadServerTools
          (twoServerSysL p1 p2 ns1 ns2) p1 []).2 p2 []).2.reg.tools
        (renameIfIn p2
          (dictKeys (loadServerTools
            (twoServerSysL p1 p2 ns1 ns2) p1 []).2.reg.tools)
          (ns2.get ⟨j, hj⟩))
        = some ((loadServerTools
          (twoServerSysL p1 p2 ns1 ns2) p1 []).2.adapters.length + j) := by
      rw [heq2]; exact i2 j hj
    rw [hgj, hkeys1] at h
    rw [show renameIfIn p2 ns1 n = p2 ++ "_" ++ n from by
      simp [renameIfIn, hn1]] at h
    rw [hadlen1] at h
    exact h
  · rw [heq2]
    refine (b2 (List.ne_nil_of_mem hn2)).trans ?_
    calc dictSet
          (loadServerTools (twoServerSysL p1 p2 ns1 ns2) p1 []).2.reg.byServer
          p2
          ((dictGet? (loadServerTools
              (twoServerSysL p1 p2 ns1 ns2) p1 []).2.reg.byServer p2).getD []
            ++ ns2.map (renameIfIn p2
              (dictKeys (loadServerTools
                (twoServerSysL p1 p2 ns1 ns2) p1 []).2.reg.tools)))
        = dictSet [(p1, ns1)] p2 ((dictGet? [(p1, ns1)] p2).getD []
            ++ ns2.map (renameIfIn p2 ns1)) := by rw [hby1, hkeys1]
      _ = [(p1, ns1), (p2, ns2.map (renameIfIn p2 ns1))] := by
          simp [dictSet, dictGet?, hp, hp2]
      _ = [(p1, ns1),
          (p2, ns2.map (fun x => if x = n then p2 ++ "_" ++ n else x))] := by
          rw [hrename]

/-- C4 witness: two providers alpha and beta each declaring the single tool
"search": the registry ends with "search" at adapter 0, "beta_search" at
adapter 1, and two tools in total. -/
theorem C4_witness :
    dictGet? (loadServerTools (loadServerTools
        (twoServerSysL "alpha" "beta" ["search"] ["search"]) "alpha" []).2
        "beta" []).2.reg.tools "search" = some 0 ∧
    dictGet? (loadServerTools (loadServerTools
        (twoServerSysL "alpha" "beta" ["search"] ["search"]) "alpha" []).2
        "beta" []).2.reg.tools ("beta" ++ "_" ++ "search") = some 1 ∧
    (loadServerTools (loadServerTools
        (twoServerSysL "alpha" "beta" ["search"] ["search"]) "alpha" []).2
        "beta" []).2.reg.tools.length = 1 + 1 := by
  obtain ⟨c1, c2, c3, c4, c5, c6⟩ :=
    C4_collision_rename_yields_both_tools "alpha" "beta" "search" ["search"] ["search"]
      (by decide) (by decide) (by decide) (by decide) (by decide)
      (by decide) (by decide) (by decide)
  exact ⟨c4 0 (by decide) rfl, c5 0 (by decide) rfl, c3⟩

/-! ## C6 -/

/-- C6 counterexample: starting from a registry satisfying the bidirectional
invariant (provider A owns "search" and "B_search"), loading provider B —
which declares a tool "search" whose collision rename "B_search" collides
again — overwrites A's forward-map entry while appending the name to B's
reverse list, so "B_search" now occurs in two reverse lists: the invariant
is NOT preserved by this load operation, refuting the claim as stated. -/
theorem C6_counterexample_rename_collision_breaks_invariant :
    RegInv c6Sys.reg ∧ ¬ RegInv (loadServerTools c6Sys "B" []).2.reg := by
  decide

theorem flatten_appendEntry_perm (B : List (String × List String)) (k nm : String) :
    List.Perm ((dictSet B k ((dictGet? B k).getD [] ++ [nm])).map Prod.snd).flatten
      (nm :: (B.map Prod.snd).flatten) := by
  induction B with
  | nil => simp [dictSet, dictGet?]
  | cons e rest ih =>
    obtain ⟨k0, l0⟩ := e
    by_cases h : k0 = k
    · subst h
      have h1 : dictGet? ((k0, l0) :: rest) k0 = some l0 := by simp [dictGet?]
      rw [h1]
      have h2 : dictSet ((k0, l0) :: rest) k0 ((some l0).getD [] ++ [nm])
          = (k0, l0 ++ [nm]) :: rest := by simp [dictSet]
      rw [h2]
      simp only [List.map_cons, List.flatten_cons]
      rw [List.append_assoc]
      exact List.perm_middle
    · have h1 : dictGet? ((k0, l0) :: rest) k = dictGet? rest k := by simp [dictGet?, h]
      rw [h1]
      have h2 : dictSet ((k0, l0) :: rest) k ((dictGet? rest k).getD [] ++ [nm])
          = (k0, l0) :: dictSet rest k ((dictGet? rest k).getD [] ++ [nm]) := by
        simp [dictSet, h]
      rw [h2]
      simp only [List.map_cons, List.flatten_cons]
      exact (ih.append_left l0).trans List.perm_middle

theorem flatten_deleteEntry_perm (B : List (String × List String)) (k : String)
    (names : List String) (h : dictGet? B k = some names) :
    List.Perm (B.map Prod.snd).flatten
      (names ++ ((dictDelete B k).map Prod.snd).flatten) := by
  induction B with
  | nil => simp [dictGet?] at h
  | cons e rest ih =>
    obtain ⟨k0, l0⟩ := e
    by_cases hk : k0 = k
    · subst hk
      have h1 : dictGet? ((k0, l0) :: rest) k0 = some l0 := by simp [dictGet?]
      rw [h1] at h
      injection h with h
      subst h
      have h2 : dictDelete ((k0, l0) :: rest) k0 = rest := by simp [dictDelete]
      rw [h2]
      simp only [List.map_cons, List.flatten_cons]
      exact List.Perm.refl _
    · have h1 : dictGet? ((k0, l0) :: rest) k = dictGet? rest k := by simp [dictGet?, hk]
      rw [h1] at h
      have h2 : dictDelete ((k0, l0) :: rest) k = (k0, l0) :: dictDelete rest k := by
        simp [dictDelete, hk]
      rw [h2]
      simp only [List.map_cons, List.flatten_cons]
      rw [show names ++ (l0 ++ ((dictDelete rest k).map Prod.snd).flatten)
            = (names ++ l0) ++ ((dictDelete rest k).map Prod.snd).flatten from
            (List.append_assoc _ _ _).symm]
      refine ((ih h).append_left l0).trans ?_
      rw [← List.append_assoc]
      exact List.perm_append_comm.append_right _

theorem dictKeys_foldl_delete (names : List String) (d : List (String × Nat)) :
    dictKeys (names.foldl (fun t nm => dictDelete t nm) d)
      = names.foldl (fun K nm => K.erase nm) (dictKeys d) := by
  induction names generalizing d with
  | nil => rfl
  | cons nm rest ih => simp [List.foldl_cons, ih, dictKeys_delete]

theorem mem_foldl_erase (names : List String) (K : List String) (hK : K.Nodup) :
    (∀ x, x ∈ names.foldl (fun K2 nm => K2.erase nm) K ↔ x ∈ K ∧ x ∉ names) ∧
    (names.foldl (fun K2 nm => K2.erase nm) K).Nodup := by
  induction names generalizing K with
  | nil => simp [hK]
  | cons nm rest ih =>
    obtain ⟨hmem, hnd⟩ := ih (K.erase nm) (hK.erase nm)
    refine ⟨fun x => ?_, hnd⟩
    rw [List.foldl_cons, hmem x, List.Nodup.mem_erase_iff hK, List.mem_cons]
    constructor
    · rintro ⟨⟨hne, hx⟩, hrest⟩
      exact ⟨hx, by rintro (h | h) <;> [exact hne h; exact hrest h]⟩
    · rintro ⟨hx, hnot⟩
      push_neg at hnot
      exact ⟨⟨hnot.1, hx⟩, hnot.2⟩

theorem registerMcpTool_reg (s : SysState) (tid : Nat) (server : String) :
    (registerMcpTool s tid server).reg =
      { tools := dictSet s.reg.tools (registerFinalName s tid server) tid,
        byServer := dictSet s.reg.byServer server
          ((dictGet? s.reg.byServer server).getD [] ++ [registerFinalName s tid server]),
        loadedServers := s.reg.loadedServers } := rfl

theorem registerMcpTool_preserves_inv (s : SysState) (tid : Nat) (server : String)
    (hinv : RegInv s.reg) (hnd : (dictKeys s.reg.tools).Nodup)
    (hfresh : registerFinalName s tid server ∉ dictKeys s.reg.tools) :
    RegInv (registerMcpTool s tid server).reg ∧
    (dictKeys (registerMcpTool s tid server).reg.tools).Nodup := by
  set fn := registerFinalName s tid server with hfn
  have hkeys : dictKeys (dictSet s.reg.tools fn tid) = dictKeys s.reg.tools ++ [fn] := by
    rw [dictSet_of_not_mem _ _ _ hfresh]
    simp [dictKeys]
  have hperm : List.Perm
      (reverseNames (registerMcpTool s tid server).reg)
      (fn :: reverseNames s.reg) :=
    flatten_appendEntry_perm s.reg.byServer server fn
  have htools : dictKeys (registerMcpTool s tid server).reg.tools
      = dictKeys s.reg.tools ++ [fn] := hkeys
  refine ⟨⟨?_, ?_⟩, ?_⟩
  · intro k hk
    rw [htools, List.mem_append] at hk
    rw [hperm.count_eq k]
    rcases hk with hk | hk
    · have hne : k ≠ fn := fun h => hfresh (h ▸ hk)
      rw [List.count_cons_of_ne hne]
      exact hinv.1 k hk
    · rw [List.mem_singleton] at hk
      subst hk
      rw [List.count_cons_self]
      have h0 : (reverseNames s.reg).count fn = 0 := by
        rw [List.count_eq_zero]
        exact fun hmem => hfresh (hinv.2 fn hmem)
      rw [h0]
  · intro nm hnm
    rw [hperm.mem_iff, List.mem_cons] at hnm
    rw [htools, List.mem_append]
    rcases hnm with hnm | hnm
    · exact Or.inr (by simp [hnm])
    · exact Or.inl (hinv.2 nm hnm)
  · rw [htools, List.nodup_append]
    exact ⟨hnd, List.nodup_singleton fn,
      fun x hx => by rw [List.mem_singleton]; exact fun h => hfresh (h ▸ hx)⟩

theorem unloadServerTools_preserves_inv (s : SysState) (server : String)
    (hinv : RegInv s.reg) (hnd : (dictKeys s.reg.tools).Nodup) :
    RegInv (unloadServerTools s server).2.reg ∧
    (dictKeys (unloadServerTools s server).2.reg.tools).Nodup := by
  cases hB : dictGet? s.reg.byServer server with
  | none =>
    have hs : (unloadServerTools s server).2 = s := by
      unfold unloadServerTools
      rw [hB]
    rw [hs]
    exact ⟨hinv, hnd⟩
  | some names =>
    have hreg : (unloadServerTools s server).2.reg =
        { tools := names.foldl (fun t nm => dictDelete t nm) s.reg.tools,
          byServer := dictDelete s.reg.byServer server,
          loadedServers := s.reg.loadedServers.filter (fun x => x ≠ server) } := by
      unfold unloadServerTools
      rw [hB]
    have hperm : List.Perm (reverseNames s.reg)
        (names ++ reverseNames (unloadServerTools s server).2.reg) := by
      rw [hreg]
      exact flatten_deleteEntry_perm s.reg.byServer server names hB
    have htools : dictKeys (unloadServerTools s server).2.reg.tools
        = names.foldl (fun K nm => K.erase nm) (dictKeys s.reg.tools) := by
      rw [hreg]
      exact dictKeys_foldl_delete names s.reg.tools
    obtain ⟨hmem, hndk⟩ := mem_foldl_erase names (dictKeys s.reg.tools) hnd
    have hcount : ∀ x, (reverseNames s.reg).count x
        = names.count x + (reverseNames (unloadServerTools s server).2.reg).count x := by
      intro x
      rw [hperm.count_eq x, List.count_append]
    refine ⟨⟨?_, ?_⟩, ?_⟩
    · intro k hk
      rw [htools, hmem k] at hk
      have h1 : (reverseNames s.reg).count k = 1 := hinv.1 k hk.1
      have h0 : names.count k = 0 := List.count_eq_zero.mpr hk.2
      have h2 := hcount k
      omega
    · intro nm hnm
      have hmemflat : nm ∈ reverseNames s.reg := by
        rw [hperm.mem_iff, List.mem_append]
        exact Or.inr hnm
      have hkeyold : nm ∈ dictKeys s.reg.tools := hinv.2 nm hmemflat
      have hnotnames : nm ∉ names := by
        intro hmemn
        have h1 : (reverseNames s.reg).count nm = 1 := hinv.1 nm hkeyold
        have h2 : 1 ≤ names.count nm := List.one_le_count_iff.mpr hmemn
        have h3 : 1 ≤ (reverseNames (unloadServerTools s server).2.reg).count nm :=
          List.one_le_count_iff.mpr hnm
        have h4 := hcount nm
        omega
      rw [htools, hmem nm]
      exact ⟨hkeyold, hnotnames⟩
    · rw [htools]
      exact hndk

/-- C6 (amended): the bidirectional forward/reverse invariant (together with
key uniqueness) is preserved by unload unconditionally, and by each tool
registration performed during a load provided the final — possibly renamed —
name under which the tool is inserted is not already a forward-map key; a
registration whose renamed name collides again overwrites the existing entry
and breaks the invariant (see the counterexample). -/
theorem C6_invariant_preservation_amended :
    (∀ (s : SysState) (tid : Nat) (server : String),
       RegInv s.reg → (dictKeys s.reg.tools).Nodup →
       registerFinalName s tid server ∉ dictKeys s.reg.tools →
       RegInv (registerMcpTool s tid server).reg ∧
       (dictKeys (registerMcpTool s tid server).reg.tools).Nodup) ∧
    (∀ (s : SysState) (server : String),
       RegInv s.reg → (dictKeys s.reg.tools).Nodup →
       RegInv (unloadServerTools s server).2.reg ∧
       (dictKeys (unloadServerTools s server).2.reg.tools).Nodup) :=
  ⟨registerMcpTool_preserves_inv, unloadServerTools_preserves_inv⟩

/-- Witness for the amended C6: a concrete registry where provider A owns
tool a; registering adapter b for provider B (fresh final name) and
unloading provider A both preserve the invariant. -/
theorem C6_amended_witness :
    (RegInv c6Sys.reg ∧ (dictKeys c6Sys.reg.tools).Nodup ∧
     registerFinalName c6Sys 2 "C" ∉ dictKeys c6Sys.reg.tools ∧
     (RegInv (registerMcpTool c6Sys 2 "C").reg ∧
      (dictKeys (registerMcpTool c6Sys 2 "C").reg.tools).Nodup)) ∧
    (RegInv (unloadServerTools c6Sys "A").2.reg ∧
     (dictKeys (unloadServerTools c6Sys "A").2.reg.tools).Nodup) :=
  ⟨⟨by decide, by decide, by decide,
    C6_invariant_preservation_amended.1 c6Sys 2 "C" (by decide) (by decide) (by decide)⟩,
   C6_invariant_preservation_amended.2 c6Sys "A" (by decide) (by decide)⟩

/-! ## C9 -/

theorem fromDict_toDict (c : ServerConfig) : fromDict (toDict c) = c := rfl

theorem dictGet?_of_mem_nodup {α : Type} (d : List (String × α)) (k : String) (v : α)
    (hnd : (dictKeys d).Nodup) (hm : (k, v) ∈ d) : dictGet? d k = some v := by
  induction d with
  | nil => simp at hm
  | cons e rest ih =>
    obtain ⟨k0, v0⟩ := e
    have hnd2 : (dictKeys rest).Nodup ∧ k0 ∉ dictKeys rest := by
      have := hnd
      simp only [dictKeys, List.map_cons, List.nodup_cons] at this
      exact ⟨this.2, this.1⟩
    rcases List.mem_cons.mp hm with he | he
    · rw [show k0 = k from congrArg Prod.fst he.symm]
      have hv : v0 = v := congrArg Prod.snd he.symm
      simp [dictGet?, hv]
    · have hk : k0 ≠ k := by
        intro h
        subst h
        exact hnd2.2 (List.mem_map.mpr ⟨(k0, v), he, rfl⟩)
      simp only [dictGet?, if_neg hk]
      exact ih hnd2.1 he

theorem exists_of_mem_keys {α : Type} (d : List (String × α)) (k : String)
    (h : k ∈ dictKeys d) : ∃ v, (k, v) ∈ d := by
  obtain ⟨e, he, hk⟩ := List.mem_map.mp h
  exact ⟨e.2, by obtain ⟨k1, v1⟩ := e; cases hk; exact he⟩

theorem loadConfig_get_not_mem (file : List (String × ConfigDict)) (m : ManagerState)
    (nm : String) (h : nm ∉ file.map (fun e => (fromDict e.2).name)) :
    dictGet? (loadConfig m file).servers nm = dictGet? m.servers nm := by
  induction file generalizing m with
  | nil => rfl
  | cons e rest ih =>
    simp only [List.map_cons, List.mem_cons] at h
    push_neg at h
    have hstep : loadConfig m (e :: rest) = loadConfig (registerServer m (fromDict e.2)) rest :=
      rfl
    rw [hstep, ih _ h.2]
    show dictGet? (dictSet m.servers (fromDict e.2).name (fromDict e.2)) nm = _
    exact dictGet?_set_ne _ _ _ _ (fun hx => h.1 (hx ▸ rfl))

theorem loadConfig_get_mem (file : List (String × ConfigDict)) (m : ManagerState)
    (ky : String) (d0 : ConfigDict) (e0 : String × ConfigDict)
    (hnd : (file.map (fun e => (fromDict e.2).name)).Nodup)
    (he : e0 ∈ file) (hd : e0.2 = d0) (hk : (fromDict d0).name = ky) :
    dictGet? (loadConfig m file).servers ky = some (fromDict d0) := by
  induction file generalizing m with
  | nil => simp at he
  | cons e rest ih =>
    have hstep : loadConfig m (e :: rest) = loadConfig (registerServer m (fromDict e.2)) rest :=
      rfl
    simp only [List.map_cons, List.nodup_cons] at hnd
    rcases List.mem_cons.mp he with h0 | h0
    · subst h0
      rw [hd] at hnd
      rw [hstep, hd]
      rw [loadConfig_get_not_mem rest _ ky (by rw [← hk]; exact hnd.1)]
      show dictGet? (dictSet m.servers (fromDict d0).name (fromDict d0)) ky = _
      rw [hk]
      exact dictGet?_set_self _ _ _
    · rw [hstep]
      exact ih _ hnd.2 h0

theorem saveConfig_names (M : ManagerState) (hkeys : KeysMatch M) :
    (saveConfig M).map (fun e => (fromDict e.2).name) = dictKeys M.servers := by
  unfold saveConfig dictKeys
  rw [List.map_map]
  apply List.map_congr_left
  intro e he
  show (fromDict (toDict e.2)).name = e.1
  rw [fromDict_toDict]
  exact hkeys e he

/-- C9: serializing a supervisor's ServerConfig set and loading the file into
a fresh supervisor restores every config exactly — for every name the fresh
supervisor holds an equal config (same name, command, description, auto-start
flag, timeout, retry count), and for names never configured both sides agree
on absence — so the configuration set is equivalent; moreover loading merges:
for any supervisor, a config whose name is absent from the file is left
untouched by load_config.  (The hypotheses hold for every supervisor built
through register_server: configs are keyed by their own name, keys are
unique, and the three default servers registered at construction are
present.) -/
theorem C9_config_round_trip_and_merge (M : ManagerState)
    (hkeys : KeysMatch M) (hnd : (dictKeys M.servers).Nodup)
    (hfs : "filesystem" ∈ dictKeys M.servers)
    (hgh : "github" ∈ dictKeys M.servers)
    (hgd : "gdrive" ∈ dictKeys M.servers) :
    (∀ nm, dictGet? (loadConfig freshManager (saveConfig M)).servers nm
       = dictGet? M.servers nm) ∧
    (∀ (M2 : ManagerState) (nm : String), nm ∉ dictKeys M.servers →
       dictGet? (loadConfig M2 (saveConfig M)).servers nm = dictGet? M2.servers nm) := by
  have hnames := saveConfig_names M hkeys
  constructor
  · intro nm
    by_cases hmem : nm ∈ dictKeys M.servers
    · obtain ⟨cfg, hcfg⟩ := exists_of_mem_keys M.servers nm hmem
      have hget : dictGet? M.servers nm = some cfg := dictGet?_of_mem_nodup _ _ _ hnd hcfg
      have hfile : (nm, toDict cfg) ∈ saveConfig M :=
        List.mem_map.mpr ⟨(nm, cfg), hcfg, rfl⟩
      have hname : (fromDict (toDict cfg)).name = nm := by
        rw [fromDict_toDict]
        exact hkeys (nm, cfg) hcfg
      rw [loadConfig_get_mem (saveConfig M) freshManager nm (toDict cfg) (nm, toDict cfg)
        (by rw [hnames]; exact hnd) hfile rfl hname]
      rw [hget, fromDict_toDict]
    · rw [loadConfig_get_not_mem _ _ _ (by rw [hnames]; exact hmem)]
      have hMnone : dictGet? M.servers nm = none := (dictGet?_eq_none _ _).mpr hmem
      rw [hMnone]
      have h1 : nm ≠ "filesystem" := fun h => hmem (h ▸ hfs)
      have h2 : nm ≠ "github" := fun h => hmem (h ▸ hgh)
      have h3 : nm ≠ "gdrive" := fun h => hmem (h ▸ hgd)
      show dictGet? [("filesystem", filesystemConfig), ("github", githubConfig),
        ("gdrive", gdriveConfig)] nm = none
      simp [dictGet?, Ne.symm h1, Ne.symm h2, Ne.symm h3]
  · intro M2 nm hmem
    exact loadConfig_get_not_mem _ _ _ (by rw [hnames]; exact hmem)

/-- Witness for C9: the round trip of the default supervisor restores the
filesystem config, and loading the saved file into a fresh supervisor leaves
a name absent from the file unbound. -/
theorem C9_witness :
    (KeysMatch freshManager ∧ (dictKeys freshManager.servers).Nodup ∧
     "filesystem" ∈ dictKeys freshManager.servers) ∧
    (dictGet? (loadConfig freshManager (saveConfig freshManager)).servers "filesystem"
       = dictGet? freshManager.servers "filesystem") ∧
    (dictGet? (loadConfig freshManager (saveConfig freshManager)).servers "custom"
       = dictGet? freshManager.servers "custom") :=
  ⟨⟨by decide, by decide, by decide⟩,
   (C9_config_round_trip_and_merge freshManager (by decide) (by decide) (by decide)
      (by decide) (by decide)).1 "filesystem",
   (C9_config_round_trip_and_merge freshManager (by decide) (by decide) (by decide)
      (by decide) (by decide)).2 freshManager "custom" (by decide)⟩

end SandboxMCP
